import Mathlib

/-!
Verification of the markup-to-record extraction core of the `models` repository
(`src/common.py`, `src/modelscope/main.py`, `src/openrouter/main.py`).

Python strings are modelled as `List Char` (Python indexes strings by code
point, exactly as `List Char` does).  Python regular-expression searches used
by the code are modelled by explicit left-to-right scanning functions whose
semantics matches the concrete patterns in the source (all of them are
literal-based patterns with character classes; the behaviour of each model is
documented at its definition).  Python `float` literals are modelled exactly
as mantissa/exponent pairs (`m / 10^k`); for every value handled here the
truncation `int(float(...))` agrees with exact rational truncation.
-/

set_option maxRecDepth 10000

abbrev PyStr := List Char

/-- Model of Python `str.isspace` restricted to the ASCII whitespace
characters (space, TAB, LF, CR, VT, FF), the only whitespace appearing in
the scanned markup. -/
def isPySpace (c : Char) : Bool :=
  c.toNat == 32 || c.toNat == 9 || c.toNat == 10 || c.toNat == 13 ||
  c.toNat == 11 || c.toNat == 12

/-- Model of Python `str.strip()` (both ends, whitespace). -/
def pyStrip (s : PyStr) : PyStr :=
  ((s.dropWhile isPySpace).reverse.dropWhile isPySpace).reverse

/-- Model of Python `str.lower()` (ASCII letters; the CJK characters used by
the source are unaffected by `lower`). -/
def lowerStr (s : PyStr) : PyStr := s.map Char.toLower

/-- Model of Python `str.upper()`. -/
def upperStr (s : PyStr) : PyStr := s.map Char.toUpper

/-- The Python slice `s[a:b]`. -/
def pySlice (s : PyStr) (a b : Nat) : PyStr := (s.drop a).take (b - a)

/-- Exact occurrence of `pat` at index `i` of `s`. -/
def matchesAtEx (s pat : PyStr) (i : Nat) : Bool :=
  pySlice s i (i + pat.length) == pat

/-- Case-insensitive occurrence of `pat` at index `i` of `s` (model of a
match under `re.IGNORECASE`). -/
def matchesAtCI (s pat : PyStr) (i : Nat) : Bool :=
  lowerStr (pySlice s i (i + pat.length)) == lowerStr pat

/-- Model of Python `pat in s` (substring containment). -/
def containsSub (s pat : PyStr) : Bool :=
  (List.range (s.length + 1)).any (matchesAtEx s pat)

/-- First index of an exact occurrence of `pat` in `s`
(model of `str.find` when an occurrence exists). -/
def indexOfSub (s pat : PyStr) : Option Nat :=
  (List.range (s.length + 1)).find? (matchesAtEx s pat)

/-- All non-overlapping case-insensitive occurrences of `kw` in `text`,
scanned left to right: the model of
`re.finditer(re.escape(keyword), all_text, re.IGNORECASE)`
(`src/modelscope/main.py:232`).  Each element is a span `(start, stop)`
with `stop = start + kw.length`. -/
def findIter (text kw : PyStr) : List (Nat × Nat) :=
  if kw.length == 0 then []
  else
    ((List.range text.length).foldl
      (fun (st : Nat × List (Nat × Nat)) i =>
        if i < st.1 then st
        else if matchesAtCI text kw i then
          (i + kw.length, st.2 ++ [(i, i + kw.length)])
        else (i + 1, st.2))
      (0, [])).2

/-- The fixed punctuation set `'，。、；：！？'` of the boundary test
(`src/modelscope/main.py:257`), by code point. -/
def isSepPunct (c : Char) : Bool :=
  c.toNat == 0xFF0C || c.toNat == 0x3002 || c.toNat == 0x3001 ||
  c.toNat == 0xFF1B || c.toNat == 0xFF1A || c.toNat == 0xFF01 ||
  c.toNat == 0xFF1F

/-- The CJK script range test `'一' <= c <= '鿿'`
(`src/modelscope/main.py:258`). -/
def isCJK (c : Char) : Bool :=
  (0x4E00 ≤ c.toNat) && (c.toNat ≤ 0x9FFF)

/-- ASCII Latin letter (used only in statements about the boundary rule). -/
def isLatin (c : Char) : Bool :=
  ((65 ≤ c.toNat) && (c.toNat ≤ 90)) || ((97 ≤ c.toNat) && (c.toNat ≤ 122))

/-- `before_char` of an occurrence starting at `s`
(`all_text[start-1] if start > 0 else ' '`). -/
def beforeChar (text : PyStr) (s : Nat) : Char :=
  if s > 0 then text.getD (s - 1) ' ' else ' '

/-- `after_char` of an occurrence ending at `e`
(`all_text[end] if end < len(all_text) else ' '`). -/
def afterChar (text : PyStr) (e : Nat) : Char :=
  if e < text.length then text.getD e ' ' else ' '

/-- The word-boundary validity test of an occurrence
(`src/modelscope/main.py:255-263`): each side is the text boundary,
whitespace, a listed punctuation mark, or a CJK character. -/
def boundaryOk (text : PyStr) (occ : Nat × Nat) : Bool :=
  let bc := beforeChar text occ.1
  let ac := afterChar text occ.2
  (occ.1 == 0 || isPySpace bc || isSepPunct bc || isCJK bc) &&
  (occ.2 ≥ text.length || isPySpace ac || isSepPunct ac || isCJK ac)

/-- `(start, end)` lies fully inside one of the already-matched spans
(`src/modelscope/main.py:243-248`). -/
def inMatchedRange (matched : List (Nat × Nat)) (occ : Nat × Nat) : Bool :=
  matched.any (fun p => p.1 ≤ occ.1 && occ.2 ≤ p.2)

/-- `(start, end)` overlaps one of the already-matched spans
(`src/modelscope/main.py:266-271`). -/
def overlapsAny (matched : List (Nat × Nat)) (occ : Nat × Nat) : Bool :=
  matched.any (fun p => !(occ.2 ≤ p.1 || p.2 ≤ occ.1))

/-- Whitespace or listed punctuation: the separator test used in the
one-character gap inspection (`src/modelscope/main.py:290`). -/
def isGapSep (c : Char) : Bool := isPySpace c || isSepPunct c

/-- The adjacency test of one occurrence against one already-matched span
(`src/modelscope/main.py:276-305`): when the keyword occurs inside the
matched text and the gap between the two spans (in either direction) is at
most one character, the occurrence counts as adjacent unless the gap holds a
separator character. -/
def adjOne (text kw : PyStr) (occ : Nat × Nat) (p : Nat × Nat) : Bool :=
  if containsSub (pySlice text p.1 p.2) kw then
    let g1s := min p.2 occ.1
    let g1e := max p.2 occ.1
    if g1e - g1s ≤ 1 then
      !(g1s < text.length && g1e - g1s == 1 && isGapSep (text.getD g1s ' '))
    else
      let g2s := min p.1 occ.2
      let g2e := max p.1 occ.2
      if g2e - g2s ≤ 1 then
        !(g2s < text.length && g2e - g2s == 1 && isGapSep (text.getD g2s ' '))
      else false
  else false

/-- The occurrence is adjacent (without separator) to an already-matched
longer span containing the keyword (`src/modelscope/main.py:276-305`). -/
def adjacentToLonger (text kw : PyStr) (matched : List (Nat × Nat))
    (occ : Nat × Nat) : Bool :=
  matched.any (adjOne text kw occ)

/-- Acceptance test of one occurrence of `kw` against the already-matched
spans: not inside a matched span, boundary-valid on both sides, not
overlapping a matched span, and not separator-free adjacent to a matched
span containing `kw` (`src/modelscope/main.py:239-309`). -/
def acceptOcc (text kw : PyStr) (matched : List (Nat × Nat))
    (occ : Nat × Nat) : Bool :=
  !(inMatchedRange matched occ) && boundaryOk text occ &&
  !(overlapsAny matched occ) && !(adjacentToLonger text kw matched occ)

/-- The first acceptable occurrence of `kw` (`valid_match`,
`src/modelscope/main.py:239-312`). -/
def findValidMatch (text kw : PyStr) (matched : List (Nat × Nat)) :
    Option (Nat × Nat) :=
  (findIter text kw).find? (acceptOcc text kw matched)

/-- The keyword loop (`src/modelscope/main.py:229-318`): the first keyword
with an acceptable occurrence becomes the single task type and the loop
stops.  `matched` is the running `matched_positions` set; since the source
breaks immediately after the first accepted keyword, the set never grows
before the loop exits. -/
def tagLoop (text : PyStr) (matched : List (Nat × Nat)) :
    List PyStr → Option PyStr
  | [] => none
  | kw :: rest =>
    match findValidMatch text kw matched with
    | some _ => some kw
    | none => tagLoop text matched rest

/-- The tagger over a caller-supplied priority-ordered vocabulary
(the `tag(text, vocabulary)` contract of the spec, instantiated by the
source at the fixed `task_keywords` list). -/
def tagWith (vocab : List PyStr) (text : PyStr) : Option PyStr :=
  tagLoop text [] vocab

/-- The fixed tagger vocabulary `task_keywords`
(`src/modelscope/main.py:213-218`), in source order. -/
def taskKeywords : List PyStr :=
  [("文字生成图片").data, ("文本生成图片").data, ("文字生成视频").data,
   ("文本生成视频").data, ("视觉多模态理解").data, ("统一多模态").data,
   ("文本到图像").data, ("图像到文本").data, ("文字生成").data,
   ("文本生成").data, ("图像描述").data, ("语音合成").data,
   ("图像分类").data, ("目标检测").data, ("视频生成").data,
   ("音频生成").data, ("多模态理解").data]

/-- The task-type tagger of the source: the keyword loop run on the fixed
vocabulary (`src/modelscope/main.py:209-318`). -/
def tagText (text : PyStr) : Option PyStr := tagWith taskKeywords text

/-- Numeric value of a digit string (most significant first). -/
def natVal (s : PyStr) : Nat :=
  s.foldl (fun acc c => 10 * acc + (c.toNat - 48)) 0

/-- Model of Python `float(s)` on plain decimal literals: optional
surrounding whitespace, optional sign, then `d+`, `d+.d*` or `.d+`.
The result is the exact value as a mantissa/exponent pair `(m, k)`
standing for `m / 10^k`.  (Exponent notation, `inf`/`nan` and digit
underscores are not produced by the scanned pages and are not modelled;
on such inputs this model returns `none` where Python would succeed.) -/
def pyFloat (s : PyStr) : Option (Int × Nat) :=
  let t := pyStrip s
  let (sgn, t1) : Int × PyStr :=
    match t with
    | '+' :: r => (1, r)
    | '-' :: r => (-1, r)
    | r => (1, r)
  let ip := t1.takeWhile Char.isDigit
  let rest := t1.drop ip.length
  match rest with
  | [] => if ip.length == 0 then none else some (sgn * natVal ip, 0)
  | '.' :: fp =>
    if fp.all Char.isDigit && (ip.length + fp.length > 0) then
      some (sgn * (natVal ip * 10 ^ fp.length + natVal fp), fp.length)
    else none
  | _ => none

/-- Remove every occurrence of the character `c` from `s`
(model of `str.replace(c, '')` for a single-character pattern). -/
def removeAllChar (s : PyStr) (c : Char) : PyStr :=
  s.filter (fun d => !(d == c))

/-- Truncation toward zero of the exact value `m / 10^k`
(model of Python `int()` applied to the float). -/
def truncVal (m : Int) (k : Nat) : Int := Int.tdiv m ((10 : Int) ^ k)

/-- The magnitude parser of the source (`src/modelscope/main.py:162-172`,
identically repeated at lines 194-204 for stars): uppercase the text; if it
contains `K` anywhere, strip every `K` and multiply the parsed remainder by
10^3 (similarly `M` ↦ 10^6, `B` ↦ 10^9, tested in that order); otherwise
parse the text directly; truncate to integer; any parse failure yields
`none` (the `except (ValueError, AttributeError): pass` branch). -/
def parse_magnitude (s : PyStr) : Option Int :=
  let u := upperStr s
  if containsSub u (['K']) then
    (pyFloat (removeAllChar (removeAllChar u 'K') 'k')).map
      (fun p => truncVal (p.1 * 1000) p.2)
  else if containsSub u (['M']) then
    (pyFloat (removeAllChar (removeAllChar u 'M') 'm')).map
      (fun p => truncVal (p.1 * 1000000) p.2)
  else if containsSub u (['B']) then
    (pyFloat (removeAllChar (removeAllChar u 'B') 'b')).map
      (fun p => truncVal (p.1 * 1000000000) p.2)
  else
    (pyFloat u).map (fun p => truncVal p.1 p.2)

/-- The magnitude parser as the spec sentence states it (for comparison
with the implementation): a single suffix letter `K`/`M`/`B` recognized
case-insensitively *at the end* of the numeral; a suffix-free numeral is
parsed directly; anything else yields `none`. -/
def parse_magnitude_claim (s : PyStr) : Option Int :=
  match s.getLast? with
  | none => none
  | some c =>
    let body := s.dropLast
    if c.toUpper == 'K' then
      (pyFloat body).map (fun p => truncVal (p.1 * 1000) p.2)
    else if c.toUpper == 'M' then
      (pyFloat body).map (fun p => truncVal (p.1 * 1000000) p.2)
    else if c.toUpper == 'B' then
      (pyFloat body).map (fun p => truncVal (p.1 * 1000000000) p.2)
    else (pyFloat s).map (fun p => truncVal p.1 p.2)

/-- First index `j ≥ a` with `s[j] = c`. -/
def findCharFrom (s : PyStr) (a : Nat) (c : Char) : Option Nat :=
  (List.range s.length).find? (fun j => decide (a ≤ j) && (s.getD j ' ' == c))

/-- First index `j ≥ a` of an exact occurrence of `pat` in `s`. -/
def findSubFrom (s pat : PyStr) (a : Nat) : Option Nat :=
  (List.range (s.length + 1)).find? (fun j => decide (a ≤ j) && matchesAtEx s pat j)

/-- First index `j ≥ a` of a case-insensitive occurrence of `pat` in `s`. -/
def findSubFromCI (s pat : PyStr) (a : Nat) : Option Nat :=
  (List.range (s.length + 1)).find? (fun j => decide (a ≤ j) && matchesAtCI s pat j)

/-- Case-insensitive substring containment. -/
def containsSubCI (s pat : PyStr) : Bool :=
  (List.range (s.length + 1)).any (matchesAtCI s pat)

/-- Model of `re.sub(r'<[^>]+>', rep, s)`: every maximal `<...>` group with a
non-empty body is replaced by `rep`, scanning left to right (a `<` with no
following `>`, or an empty `<>`, is left in place, as with the regex). -/
def stripTagsWith (rep : PyStr) (s : PyStr) : PyStr :=
  ((List.range s.length).foldl
    (fun (st : Nat × PyStr) i =>
      if i < st.1 then st
      else if s.getD i ' ' == '<' then
        match findCharFrom s (i + 1) '>' with
        | some j => if i + 2 ≤ j then (j + 1, st.2 ++ rep) else (i + 1, st.2 ++ [s.getD i ' '])
        | none => (i + 1, st.2 ++ [s.getD i ' '])
      else (i + 1, st.2 ++ [s.getD i ' ']))
    (0, [])).2

/-- Maximal runs of characters satisfying `p`, in order (characters not
satisfying `p` separate the runs and are discarded). -/
def groupRuns (p : Char → Bool) : PyStr → List PyStr
  | [] => []
  | c :: rest =>
    let r := groupRuns p rest
    if p c then
      match rest with
      | [] => [[c]]
      | d :: _ =>
        if p d then
          match r with
          | x :: xs => (c :: x) :: xs
          | [] => [[c]]
        else [c] :: r
    else r

/-- Model of `' '.join(s.split())`: collapse whitespace runs to single
spaces and drop leading/trailing whitespace
(`src/modelscope/main.py:81-82, 222-223`). -/
def collapseWs (s : PyStr) : PyStr :=
  List.intercalate ([' ']) (groupRuns (fun c => !(isPySpace c)) s)

/-- The flattened text of a fragment: markup tags replaced by single spaces,
whitespace collapsed (`src/modelscope/main.py:221-223`). -/
def flattenText (b : PyStr) : PyStr := collapseWs (stripTagsWith ([' ']) b)

/-- The extracted-record dictionary `model_info` of
`extract_model_info_from_link`.  `Option` distinguishes an absent key from a
key set to an empty value, matching the `"k" in model_info` tests of the
source. -/
structure ModelInfo where
  link : Option PyStr := none
  id : Option PyStr := none
  organization : Option PyStr := none
  name : Option PyStr := none
  description : Option PyStr := none
  time : Option PyStr := none
  downloads : Option Int := none
  stars : Option Int := none
  task_types : Option PyStr := none
deriving DecidableEq, Repr

/-- A double or single quote. -/
def isQuote (c : Char) : Bool := c.toNat == 34 || c.toNat == 39

/-- Model of `re.search(r'href=["\']([^"\']+)["\']', b)`
(`src/modelscope/main.py:37`): the first position where `href=` is followed
by a quote, a non-empty quote-free run and a closing quote; the run is the
captured group. -/
def findHref (b : PyStr) : Option PyStr :=
  (List.range b.length).foldl
    (fun acc i =>
      if acc.isSome then acc
      else if matchesAtEx b (("href=").data) i && isQuote (b.getD (i + 5) ' ') &&
              decide (i + 5 < b.length) then
        let run := (b.drop (i + 6)).takeWhile (fun c => !(isQuote c))
        if run.length != 0 && decide (i + 6 + run.length < b.length) &&
           isQuote (b.getD (i + 6 + run.length) ' ') then
          some run
        else none
      else acc)
    none

/-- Model of `re.search(r'c4=([^&]+)', b)` (`src/modelscope/main.py:53`):
the first position of `c4=` followed by a non-empty `&`-free run. -/
def findC4 (b : PyStr) : Option PyStr :=
  (List.range b.length).foldl
    (fun acc i =>
      if acc.isSome then acc
      else if matchesAtEx b (("c4=").data) i then
        let run := (b.drop (i + 3)).takeWhile (fun c => !(c == '&'))
        if run.length != 0 then some run else none
      else acc)
    none

/-- Hexadecimal digit value. -/
def hexVal (c : Char) : Option Nat :=
  if 48 ≤ c.toNat && c.toNat ≤ 57 then some (c.toNat - 48)
  else if 65 ≤ c.toNat && c.toNat ≤ 70 then some (c.toNat - 55)
  else if 97 ≤ c.toNat && c.toNat ≤ 102 then some (c.toNat - 87)
  else none

/-- Model of `urllib.parse.unquote` on the single-byte (ASCII) escapes used
by the `c4=` tracking values: each valid `%XX` is decoded, anything else is
kept verbatim.  (Multi-byte UTF-8 escape sequences do not occur in the
tracking ids and are not modelled.) -/
def pyUnquote : PyStr → PyStr
  | '%' :: a :: b :: rest =>
    match hexVal a, hexVal b with
    | some ha, some hb => Char.ofNat (16 * ha + hb) :: pyUnquote rest
    | _, _ => '%' :: pyUnquote (a :: b :: rest)
  | c :: rest => c :: pyUnquote rest
  | [] => []

/-- Model of `str.split(c)` for a one-character separator (keeps empty
segments, as Python does). -/
def splitChar (c : Char) : PyStr → List PyStr
  | [] => [[]]
  | d :: rest =>
    let r := splitChar c rest
    if d == c then [] :: r
    else
      match r with
      | x :: xs => (d :: x) :: xs
      | [] => [[d]]

/-- Model of `str.replace(pat, '')`: delete every non-overlapping occurrence
of `pat`, scanning left to right. -/
def pyReplaceDel (s pat : PyStr) : PyStr :=
  if pat.length == 0 then s
  else
    ((List.range s.length).foldl
      (fun (st : Nat × PyStr) i =>
        if i < st.1 then st
        else if matchesAtEx s pat i then (i + pat.length, st.2)
        else (i + 1, st.2 ++ [s.getD i ' ']))
      (0, [])).2

/-- The relative path marker `"/models/"`. -/
def modelsMarker : PyStr := ("/models/").data

/-- The site origin prepended to relative references
(`src/modelscope/main.py:42`). -/
def mscOrigin : PyStr := ("https://modelscope.cn").data

/-- The primary link/identifier rule (`src/modelscope/main.py:36-50`):
the first `href` attribute value is stripped; a value starting with
`/models/` is made absolute, the value with every `"/models/"` occurrence
removed becomes the id, and the first path segment becomes the organization
when the split has at least two segments; any other value only sets the
link. -/
def hrefStage (b : PyStr) : ModelInfo :=
  match findHref b with
  | none => {}
  | some h0 =>
    let h := pyStrip h0
    if matchesAtEx h modelsMarker 0 then
      let mp := pyReplaceDel h modelsMarker
      let parts := splitChar '/' mp
      { link := some (mscOrigin ++ h), id := some mp,
        organization :=
          if 2 ≤ parts.length then some (parts.headD []) else none }
    else { link := some h }

/-- The secondary tracking-attribute rule (`src/modelscope/main.py:52-64`):
URL-decode the `c4=` value; when it contains `/` and splits into at least
two segments, set `organization` and `id` — each only when the key is not
already present. -/
def c4Stage (m : ModelInfo) (b : PyStr) : ModelInfo :=
  match findC4 b with
  | none => m
  | some enc =>
    let v := pyUnquote enc
    if containsSub v (['/']) then
      let parts := splitChar '/' v
      if 2 ≤ parts.length then
        let m1 :=
          if m.organization = none then
            { m with organization := some (parts.headD []) }
          else m
        if m1.id = none then { m1 with id := some v } else m1
      else m
    else m

/-- Model of `re.search(r'<TAG[^>]*class="[^"]*CLS[^"]*"[^>]*>(.*?)</TAG>',
b, re.DOTALL | re.IGNORECASE)` (`src/modelscope/main.py:68-73, 116`): at the
first `<TAG` whose opening tag (up to the first `>`) carries a `class`
attribute containing `CLS`, capture the content up to the first closing
`</TAG>`. -/
def findTagClass (tagName cls b : PyStr) : Option PyStr :=
  (List.range b.length).foldl
    (fun acc i =>
      if acc.isSome then acc
      else if matchesAtCI b ('<' :: tagName) i then
        match findCharFrom b (i + 1 + tagName.length) '>' with
        | none => none
        | some g =>
          let head := pySlice b (i + 1 + tagName.length) g
          match findSubFromCI head (("class=\"").data) 0 with
          | none => none
          | some p =>
            match findCharFrom head (p + 7) '"' with
            | none => none
            | some q =>
              if containsSubCI (pySlice head (p + 7) q) cls then
                match findSubFromCI b ([ '<', '/' ] ++ tagName ++ ['>']) (g + 1) with
                | none => none
                | some m => some (pySlice b (g + 1) m)
              else none
      else acc)
    none

/-- The name stoplist of the Chinese-name fallback
(`src/modelscope/main.py:89-93`); note it differs from the tagger
vocabulary. -/
def nameStopKeywords : List PyStr :=
  [("文本生成图片").data, ("文本生成视频").data, ("视觉多模态理解").data,
   ("统一多模态").data, ("文本生成").data, ("图像描述").data,
   ("语音合成").data, ("图像分类").data, ("目标检测").data,
   ("文本到图像").data, ("图像到文本").data, ("视频生成").data,
   ("音频生成").data, ("多模态理解").data]

/-- The Chinese-name fallback (`src/modelscope/main.py:84-104`): the first
maximal CJK run of the flattened text that is not a stoplisted phrase, has
at least two characters, and first occurs within the first 200 characters. -/
def chineseName (allText : PyStr) : Option PyStr :=
  (groupRuns isCJK allText).find?
    (fun ct =>
      !(nameStopKeywords.any (fun k => k == ct)) && decide (2 ≤ ct.length) &&
      (match indexOfSub allText ct with
       | some p => decide (p < 200)
       | none => false))

/-- The display-name extraction (`src/modelscope/main.py:66-113`): a
title-styled span, then a `title`-classed span, then a `title`-classed div
(tags stripped, trimmed, only set when non-empty); otherwise the
Chinese-name fallback on the flattened text; otherwise — when an `id` key is
present and splits on `/` into at least two parts — the last path segment.
Returns the value to store under `name`, or `none` to leave it unset. -/
def computeName (m : ModelInfo) (b : PyStr) : Option PyStr :=
  match (findTagClass (("span").data) (("ms-title-font").data) b <|>
         findTagClass (("span").data) (("title").data) b <|>
         findTagClass (("div").data) (("title").data) b) with
  | some t =>
    let tt := pyStrip (stripTagsWith [] t)
    if tt.length != 0 then some tt else none
  | none =>
    match chineseName (flattenText b) with
    | some cn => some cn
    | none =>
      match m.id with
      | some idv =>
        let parts := splitChar '/' idv
        if 2 ≤ parts.length then some (parts.getLastD []) else none
      | none => none

/-- Field update for the name stage. -/
def nameStage (m : ModelInfo) (b : PyStr) : ModelInfo :=
  match computeName m b with
  | some n => { m with name := some n }
  | none => m

/-- The description extraction (`src/modelscope/main.py:116-120`): first
`desc`-classed div, tags stripped, trimmed, set only when non-empty. -/
def descStage (m : ModelInfo) (b : PyStr) : ModelInfo :=
  match findTagClass (("div").data) (("desc").data) b with
  | none => m
  | some t =>
    let d := pyStrip (stripTagsWith [] t)
    if d.length != 0 then { m with description := some d } else m

/-- Strict icon-value pattern
`MARKER[^>]*>.*?</use></svg></span>([^<]+)</div>`
(`src/modelscope/main.py:127-131` and analogues): after the first occurrence
of the marker and the next `>`, the first `</use></svg></span>` closer that
is followed by a non-empty `<`-free run and then `</div>` yields that run. -/
def findIconValueFrom (marker closerSeq : PyStr) (b : PyStr) : Option PyStr :=
  (List.range b.length).foldl
    (fun acc i =>
      if acc.isSome then acc
      else if matchesAtCI b marker i then
        match findCharFrom b (i + marker.length) '>' with
        | none => none
        | some g =>
          (List.range b.length).foldl
            (fun acc2 j =>
              if acc2.isSome then acc2
              else if decide (g + 1 ≤ j) && matchesAtCI b closerSeq j then
                let run := (b.drop (j + closerSeq.length)).takeWhile
                  (fun c => !(c == '<'))
                if run.length != 0 &&
                   matchesAtCI b (("</div>").data) (j + closerSeq.length + run.length)
                then some run else acc2
              else acc2)
            none
      else acc)
    none

/-- The two ordered pattern variants locating an icon-tagged value: the
strict variant anchors at `xlink:href="#ICON"` with the adjacent closer
`</use></svg></span>`, the loose variant anchors at `#ICON"` and only
requires a later `</span>` closer (`src/modelscope/main.py:127-157` and
analogues for stars). -/
def findIconValue (icon : PyStr) (b : PyStr) : Option PyStr :=
  match findIconValueFrom ((("xlink:href=\"#").data) ++ icon ++ ['"'])
      (("</use></svg></span>").data) b with
  | some v => some v
  | none =>
    findIconValueFrom ((['#'] ++ icon ++ ['"'])) (("</span>").data) b

/-- The timestamp extraction (`src/modelscope/main.py:125-143`). -/
def timeStage (m : ModelInfo) (b : PyStr) : ModelInfo :=
  match findIconValue (("icon-maasshijian-time-line1").data) b with
  | none => m
  | some t =>
    let tt := pyStrip t
    if tt.length != 0 then { m with time := some tt } else m

/-- The downloads extraction (`src/modelscope/main.py:145-175`): locate the
icon-tagged text and run the magnitude parser; a parse failure leaves the
field unset (the `except ... pass`). -/
def dlStage (m : ModelInfo) (b : PyStr) : ModelInfo :=
  match findIconValue (("icon-maasa-zhuangtai216x16").data) b with
  | none => m
  | some t =>
    let tt := pyStrip t
    if tt.length != 0 then
      match parse_magnitude tt with
      | some v => { m with downloads := some v }
      | none => m
    else m

/-- The stars extraction (`src/modelscope/main.py:177-207`). -/
def starsStage (m : ModelInfo) (b : PyStr) : ModelInfo :=
  match findIconValue (("icon-maasa-shoucangzhuangtai216x16").data) b with
  | none => m
  | some t =>
    let tt := pyStrip t
    if tt.length != 0 then
      match parse_magnitude tt with
      | some v => { m with stars := some v }
      | none => m
    else m

/-- The task-type stage (`src/modelscope/main.py:209-322`): run the tagger
over the flattened text; a single keyword at most is stored. -/
def tagStage (m : ModelInfo) (b : PyStr) : ModelInfo :=
  match tagText (flattenText b) with
  | some k => { m with task_types := some k }
  | none => m

/-- `extract_model_info_from_link` (`src/modelscope/main.py:23-327`): the
field-extraction stages applied in source order to one `<a ...>` fragment. -/
def extract_model_info_from_link (b : PyStr) : ModelInfo :=
  tagStage
    (starsStage
      (dlStage
        (timeStage
          (descStage
            (nameStage (c4Stage (hrefStage b) b) b) b) b) b) b) b

/-- Python truthiness of a dictionary lookup `d.get(k, "")`: the key is
absent or holds an empty string. -/
def optFalsy (o : Option PyStr) : Bool :=
  match o with
  | none => true
  | some s => s.length == 0

/-- The value of `d.get(k, "")`. -/
def pyGet (o : Option PyStr) : PyStr := o.getD []

/-- The record-assembly step shared by `parse_html_file` and
`fetch_modelscope_models` (`src/modelscope/main.py:371-378, 593-602`):
reject when identifier and name are both missing/empty; otherwise copy the
present one into the missing one. -/
def assembleHtml (m : ModelInfo) : Option ModelInfo :=
  if optFalsy m.id ∧ optFalsy m.name then none
  else
    let m1 := if optFalsy m.id then { m with id := some (pyGet m.name) } else m
    let m2 := if optFalsy m1.name then { m1 with name := some (pyGet m1.id) } else m1
    some m2

/-- The normalization key `model_info.get("id", "").lower().strip()`
(`src/modelscope/main.py:381, 621`). -/
def nkey (r : ModelInfo) : PyStr := pyStrip (lowerStr (pyGet r.id))

/-- The cross-page deduplication loop of `fetch_modelscope_models`
(`src/modelscope/main.py:617-627`): a record with a fresh non-empty key is
kept and its key recorded; a record with an empty key is appended without
touching the seen set; a record with an already-seen key is dropped. -/
def dedupeAux (seen : List PyStr) : List ModelInfo → List ModelInfo
  | [] => []
  | r :: rs =>
    let k := nkey r
    if k ≠ [] ∧ k ∉ seen then r :: dedupeAux (k :: seen) rs
    else if k = [] then r :: dedupeAux seen rs
    else dedupeAux seen rs

/-- `dedupe` run from an empty seen set (one full pass). -/
def dedupe (rs : List ModelInfo) : List ModelInfo := dedupeAux [] rs

/-- The per-record deduplication of `parse_html_file`
(`src/modelscope/main.py:380-386`) applied to a list of assembled records:
a record whose key is empty **or** already seen is skipped. -/
def htmlDedupeAux (seen : List PyStr) : List ModelInfo → List ModelInfo
  | [] => []
  | r :: rs =>
    let k := nkey r
    if k = [] ∨ k ∈ seen then htmlDedupeAux seen rs
    else r :: htmlDedupeAux (k :: seen) rs

/-- `parse_html_file`'s dedup stage from an empty seen set. -/
def htmlDedupe (rs : List ModelInfo) : List ModelInfo := htmlDedupeAux [] rs

/-- The explicit block separator token (`src/modelscope/main.py:351`). -/
def htmlSeparator : PyStr := ("<!-- ===== MODEL BLOCK SEPARATOR ===== -->").data

/-- Model of `str.split(sep)` for a multi-character separator (keeps empty
segments). -/
def splitOnSub (s sep : PyStr) : List PyStr :=
  if sep.length == 0 then [s]
  else
    let st := (List.range s.length).foldl
      (fun (st : Nat × PyStr × List PyStr) i =>
        if i < st.1 then st
        else if matchesAtEx s sep i then
          (i + sep.length, [], st.2.2 ++ [st.2.1])
        else (i + 1, st.2.1 ++ [s.getD i ' '], st.2.2))
      (0, [], [])
    st.2.2 ++ [st.2.1]

/-- One match of the model-card anchor pattern
`<a[^>]*data-autolog[^>]*c3=modelCard[^>]*>.*?</a>` at index `i`
(`src/modelscope/main.py:357`): the opening tag up to the first `>` must
contain `data-autolog` followed by `c3=modelCard`; the match extends to the
first subsequent `</a>`.  Returns the exclusive end index. -/
def patternBlockAt (s : PyStr) (i : Nat) : Option Nat :=
  if matchesAtCI s (("<a").data) i then
    match findCharFrom s (i + 2) '>' with
    | none => none
    | some g =>
      let head := pySlice s (i + 2) g
      match findSubFromCI head (("data-autolog").data) 0 with
      | none => none
      | some p =>
        if (findSubFromCI head (("c3=modelCard").data) (p + 12)).isSome then
          match findSubFromCI s (("</a>").data) (g + 1) with
          | some m => some (m + 4)
          | none => none
        else none
  else none

/-- All non-overlapping model-card anchor matches, in document order
(model of `re.findall` on the pattern above). -/
def patternBlocks (s : PyStr) : List PyStr :=
  ((List.range s.length).foldl
    (fun (st : Nat × List PyStr) i =>
      if i < st.1 then st
      else
        match patternBlockAt s i with
        | some e => (e, st.2 ++ [pySlice s i e])
        | none => (i + 1, st.2))
    (0, [])).2

/-- The fragment splitter of `parse_html_file`
(`src/modelscope/main.py:350-359`): separator mode when the explicit token
occurs, pattern mode otherwise. -/
def blocksOf (content : PyStr) : List PyStr :=
  if containsSub content htmlSeparator then splitOnSub content htmlSeparator
  else patternBlocks content

/-- The per-block loop of `parse_html_file`
(`src/modelscope/main.py:361-390`): strip the block, skip empty blocks,
extract, assemble, then deduplicate by key (empty or seen keys are
skipped). -/
def parseHtmlAux (seen : List PyStr) : List PyStr → List ModelInfo
  | [] => []
  | blk :: rest =>
    let b := pyStrip blk
    if b = [] then parseHtmlAux seen rest
    else
      match assembleHtml (extract_model_info_from_link b) with
      | none => parseHtmlAux seen rest
      | some r =>
        let k := nkey r
        if k = [] ∨ k ∈ seen then parseHtmlAux seen rest
        else r :: parseHtmlAux (k :: seen) rest

/-- `parse_html_file` after the file read (`src/modelscope/main.py:330-403`):
the extraction pass over the raw markup string. -/
def parse_html_models (content : PyStr) : List ModelInfo :=
  parseHtmlAux [] (blocksOf content)

/-- A record of the OpenRouter RSS source (`src/openrouter/main.py:145-161`);
optional fields are present only when non-empty. -/
structure RssModel where
  id : PyStr
  name : PyStr
  provider : Option PyStr := none
  description : Option PyStr := none
  link : Option PyStr := none
  pub_date : Option PyStr := none
deriving DecidableEq, Repr

/-- Model of `re.search(OPEN + '(.*?)' + CLOSE, s, re.DOTALL)` for literal
delimiters: the text between the first occurrence of `OPEN` and the first
occurrence of `CLOSE` after it. -/
def betweenTags (openT closeT s : PyStr) : Option PyStr :=
  match findSubFrom s openT 0 with
  | none => none
  | some i =>
    match findSubFrom s closeT (i + openT.length) with
    | none => none
    | some j => some (pySlice s (i + openT.length) j)

/-- `re.findall(r'<item>(.*?)</item>', xml, re.DOTALL)`
(`src/openrouter/main.py:57-58`): the non-overlapping item bodies, in
document order. -/
def rssItems (s : PyStr) : List PyStr :=
  ((List.range s.length).foldl
    (fun (st : Nat × List PyStr) i =>
      if i < st.1 then st
      else if matchesAtEx s (("<item>").data) i then
        match findSubFrom s (("</item>").data) (i + 6) with
        | some j => (j + 7, st.2 ++ [pySlice s (i + 6) j])
        | none => (i + 1, st.2)
      else (i + 1, st.2))
    (0, [])).2

/-- `extract_cdata_content` (`src/openrouter/main.py:21-39`). -/
def extract_cdata_content (t : PyStr) : PyStr :=
  if t.length == 0 then []
  else
    match betweenTags (("<![CDATA[").data) (("]]>").data) t with
    | some inner => pyStrip inner
    | none => pyStrip t

/-- The common tail `(.+?)\s*\(([^)]+)\)$` of the two title patterns
(`src/openrouter/main.py:78, 86`): the string must end with `)`; the
opening `(` is the first position `j ≥ 1` such that the bracketed segment
is non-empty and free of `)`; the name is everything before it, the id the
segment, both stripped (as the callers strip every captured group). -/
def titleTail (r : PyStr) : Option (PyStr × PyStr) :=
  if r.getLastD ' ' == ')' then
    match (List.range r.length).find?
      (fun j =>
        decide (1 ≤ j) && (r.getD j ' ' == '(') &&
        decide (j + 2 ≤ r.length - 1) &&
        !(containsSub (pySlice r (j + 1) (r.length - 1)) ([')']))) with
    | some j =>
      some (pyStrip (pySlice r 0 j), pyStrip (pySlice r (j + 1) (r.length - 1)))
    | none => none
  else none

/-- The fallback title parse `^(.+?)\s*\(([^)]+)\)$`, or the whole stripped
title as the name (`src/openrouter/main.py:84-91`). -/
def parseTitleRest (title : PyStr) : PyStr × PyStr × PyStr :=
  match titleTail title with
  | some ni => ([], ni.1, ni.2)
  | none => ([], pyStrip title, [])

/-- The ordered title parse (`src/openrouter/main.py:75-91`): first
`^([^:]+):\s*(.+?)\s*\(([^)]+)\)$` (provider, name, id), then
`^(.+?)\s*\(([^)]+)\)$` (name, id), else the whole title as name.
Returns (provider, name, id). -/
def parseTitle (title : PyStr) : PyStr × PyStr × PyStr :=
  match findCharFrom title 0 ':' with
  | some p =>
    if 1 ≤ p then
      match titleTail (title.drop (p + 1)) with
      | some ni => (pyStrip (pySlice title 0 p), ni.1, ni.2)
      | none => parseTitleRest title
    else parseTitleRest title
  | none => parseTitleRest title

/-- `re.search(r'openrouter\.ai/([^/]+/[^/]+)', link)`
(`src/openrouter/main.py:111`): after the first suitable occurrence of
`openrouter.ai/`, a non-empty `/`-free segment, a `/`, and a second
non-empty `/`-free segment. -/
def orLinkId (link : PyStr) : Option PyStr :=
  (List.range link.length).foldl
    (fun acc i =>
      if acc.isSome then acc
      else if matchesAtEx link (("openrouter.ai/").data) i then
        let a := i + 14
        let seg1 := (link.drop a).takeWhile (fun c => !(c == '/'))
        if seg1.length != 0 && decide (a + seg1.length < link.length) then
          let seg2 := (link.drop (a + seg1.length + 1)).takeWhile
            (fun c => !(c == '/'))
          if seg2.length != 0 then some (seg1 ++ '/' :: seg2) else acc
        else acc
      else acc)
    none

/-- The guid identifier pattern of `src/openrouter/main.py:132` (a capture
of a non-empty slash-free run, a slash, and a non-empty run free of slash
and dash): the search succeeds at the first position admitting it. -/
def guidIdExtract (g : PyStr) : Option PyStr :=
  (List.range g.length).foldl
    (fun acc i =>
      if acc.isSome then acc
      else
        let run1 := (g.drop i).takeWhile (fun c => !(c == '/'))
        if run1.length != 0 && decide (i + run1.length < g.length) then
          let run2 := (g.drop (i + run1.length + 1)).takeWhile
            (fun c => !(c == '/' || c == '-'))
          if run2.length != 0 then some (run1 ++ '/' :: run2) else acc
        else acc)
    none

/-- `re.search(r'<guid[^>]*>(.*?)</guid>', item)`
(`src/openrouter/main.py:116`): content between the first `<guid...>`
opening tag and the first subsequent `</guid>`. -/
def betweenGuid (s : PyStr) : Option PyStr :=
  match findSubFrom s (("<guid").data) 0 with
  | none => none
  | some i =>
    match findCharFrom s (i + 5) '>' with
    | none => none
    | some g =>
      match findSubFrom s (("</guid>").data) (g + 1) with
      | none => none
      | some j => some (pySlice s (g + 1) j)

/-- The (provider, name, id) extracted from an item's title
(`src/openrouter/main.py:63-91`); all empty when the title is missing or
empty. -/
def rssTitleInfo (item : PyStr) : PyStr × PyStr × PyStr :=
  let title :=
    match betweenTags (("<title>").data) (("</title>").data) item with
    | some t => extract_cdata_content t
    | none => []
  if title ≠ [] then parseTitle title else ([], [], [])

/-- The item's stripped `<link>` text (`src/openrouter/main.py:103-106`). -/
def rssLinkOf (item : PyStr) : PyStr :=
  match betweenTags (("<link>").data) (("</link>").data) item with
  | some l => pyStrip l
  | none => []

/-- The item's stripped guid text (`src/openrouter/main.py:116-119`). -/
def rssGuidOf (item : PyStr) : PyStr :=
  match betweenGuid item with
  | some t => pyStrip t
  | none => []

/-- The item's cleaned description (`src/openrouter/main.py:93-100`). -/
def rssDescOf (item : PyStr) : PyStr :=
  match betweenTags (("<description>").data) (("</description>").data) item with
  | some d => pyStrip (stripTagsWith [] (extract_cdata_content d))
  | none => []

/-- The item's stripped `<pubDate>` text (`src/openrouter/main.py:122-125`). -/
def rssPubDateOf (item : PyStr) : PyStr :=
  match betweenTags (("<pubDate>").data) (("</pubDate>").data) item with
  | some t => pyStrip t
  | none => []

/-- The final identifier of an item after the ordered fallbacks
(`src/openrouter/main.py:108-134`): the title id, else the id recovered
from the link, else the id recovered from the guid. -/
def rssIdOf (item : PyStr) : PyStr :=
  let id0 := (rssTitleInfo item).2.2
  let link := rssLinkOf item
  let id1 :=
    if id0 = [] ∧ link ≠ [] then
      match orLinkId link with
      | some v => v
      | none => id0
    else id0
  if id1 = [] then
    let g := rssGuidOf item
    if g ≠ [] then
      match guidIdExtract g with
      | some v => v
      | none => id1
    else id1
  else id1

/-- Assembly of one RSS item (`src/openrouter/main.py:61-162`, without the
dedup step): an item whose final identifier is empty yields no record;
otherwise the name falls back to the identifier and each optional field is
present only when non-empty. -/
def rssAssemble (item : PyStr) : Option RssModel :=
  let pni := rssTitleInfo item
  let mid := rssIdOf item
  if mid = [] then none
  else
    some
      { id := mid,
        name := if pni.2.1 ≠ [] then pni.2.1 else mid,
        provider := if pni.1 ≠ [] then some pni.1 else none,
        description :=
          if rssDescOf item ≠ [] then some (rssDescOf item) else none,
        link := if rssLinkOf item ≠ [] then some (rssLinkOf item) else none,
        pub_date :=
          if rssPubDateOf item ≠ [] then some (rssPubDateOf item) else none }

/-- The item loop of `parse_rss_xml` with its dedup-by-lowercased-id
(`src/openrouter/main.py:61-166`). -/
def parseRssAux (seen : List PyStr) : List PyStr → List RssModel
  | [] => []
  | it :: rest =>
    match rssAssemble it with
    | none => parseRssAux seen rest
    | some r =>
      let k := lowerStr r.id
      if k ∈ seen then parseRssAux seen rest
      else r :: parseRssAux (k :: seen) rest

/-- `parse_rss_xml` (`src/openrouter/main.py:42-176`). -/
def parse_rss_xml (xml : PyStr) : List RssModel :=
  parseRssAux [] (rssItems xml)

/-- An input entry of `validate_and_clean_models`, modelled as a record of
its three string fields (the source skips non-dict entries and defaults
missing keys to the empty string). -/
structure VModel where
  model : PyStr := []
  id : PyStr := []
  context : PyStr := []
deriving DecidableEq, Repr

/-- An output entry of `validate_and_clean_models`
(`src/common.py:114-118`). -/
structure VOut where
  model : PyStr
  id : PyStr
  context : PyStr
deriving DecidableEq, Repr

/-- `re.search(r'(\d+)', s)`: the first maximal run of decimal digits. -/
def firstDigitRun (s : PyStr) : Option PyStr :=
  let rest := s.dropWhile (fun c => !(c.isDigit))
  if rest = [] then none else some (rest.takeWhile Char.isDigit)

/-- The context cleanup of `validate_and_clean_models`
(`src/common.py:104-112`): strip; an empty result, or one with no digit,
becomes empty; otherwise the first digit run. -/
def vContext (cRaw : PyStr) : PyStr :=
  let c := pyStrip cRaw
  if c = [] then []
  else
    match firstDigitRun c with
    | some r => r
    | none => []

/-- The dedup key of an output entry: lowercased id-or-model. -/
def vKey (r : VOut) : PyStr :=
  lowerStr (if r.id ≠ [] then r.id else r.model)

/-- The loop of `validate_and_clean_models` (`src/common.py:84-120`). -/
def validateAux (seen : List PyStr) : List VModel → List VOut
  | [] => []
  | m :: rest =>
    let name := pyStrip m.model
    let mid := pyStrip m.id
    if name = [] ∧ mid = [] then validateAux seen rest
    else
      let k := lowerStr (if mid ≠ [] then mid else name)
      if k = [] ∨ k ∈ seen then validateAux seen rest
      else
        { model := if name ≠ [] then name else mid, id := mid,
          context := vContext m.context } :: validateAux (k :: seen) rest

/-- `validate_and_clean_models` (`src/common.py:72-120`). -/
def validate_and_clean_models (ms : List VModel) : List VOut :=
  validateAux [] ms

/-- The seen-key set after the cross-page dedup loop has processed `xs`
starting from `seen` (mirrors `dedupeAux`). -/
def dedupeSeen (seen : List PyStr) : List ModelInfo → List PyStr
  | [] => seen
  | r :: rs =>
    if nkey r ≠ [] ∧ nkey r ∉ seen then dedupeSeen (nkey r :: seen) rs
    else dedupeSeen seen rs

/-- The occurrence has a Latin letter as its immediate left or right
neighbour (the violation scenario of the boundary rule). -/
abbrev latinTouch (text : PyStr) (occ : Nat × Nat) : Prop :=
  (0 < occ.1 ∧ isLatin (text.getD (occ.1 - 1) ' ') = true) ∨
  (occ.2 < text.length ∧ isLatin (text.getD occ.2 ' ') = true)

/-- `r` is the first maximal run of decimal digits of `s`: non-empty, all
digits, preceded only by digit-free text and followed by a non-digit (or
nothing). -/
def isFirstDigitRun (s r : PyStr) : Prop :=
  r ≠ [] ∧ (∀ c ∈ r, c.isDigit = true) ∧
  ∃ a b, s = a ++ r ++ b ∧ (∀ c ∈ a, c.isDigit = false) ∧
    (∀ d tl, b = d :: tl → d.isDigit = false)

/-- Counterexample records for the dedup claims: three assembled records
sharing the non-empty normalization key `"x"`. -/
def cexC : ModelInfo := { id := some (("X").data), name := some (("X").data) }

def cexA : ModelInfo := { id := some (("x").data), name := some (("Aname").data) }

def cexB : ModelInfo := { id := some ((" x").data), name := some (("Bname").data) }

/-- An assembled record whose identifier is whitespace only: its
normalization key is empty. -/
def cexE : ModelInfo := { id := some ((" ").data), name := some ((" ").data) }

/-- Counterexample fragment for the link rule: an `href` whose path tail
contains a second `/models/` occurrence. -/
def cexBlock : PyStr := ("<a href=\"/models/x/models/y\">z</a>").data

/-- Witness fragment for the link rule. -/
def witBlock : PyStr := ("<a href=\"/models/o/n\">z</a>").data

/-- Counterexample RSS input: a single item whose title yields a name but
no identifier, with no link and no guid. -/
def cexXml : PyStr := ("<item><title>SoloName</title></item>").data

/-- Counterexample text for the tagger claims: contains `文本生成图片` with
no whitespace and no punctuation anywhere, flanked by a Latin letter on the
left and a CJK character on the right. -/
def cexTagText : PyStr := ("a文本生成图片的文本生成").data

/-! ### Lemmas about the cross-page dedup loop -/

theorem dedupeAux_subset :
    ∀ (seen : List PyStr) (xs : List ModelInfo) (r : ModelInfo),
      r ∈ dedupeAux seen xs → r ∈ xs := by
  intro seen xs
  induction xs generalizing seen with
  | nil => intro r h; simp [dedupeAux] at h
  | cons a rs ih =>
    intro r h
    simp only [dedupeAux] at h
    by_cases h1 : nkey a ≠ [] ∧ nkey a ∉ seen
    · rw [if_pos h1] at h
      rcases List.mem_cons.mp h with rfl | hm
      · exact List.mem_cons_self _ _
      · exact List.mem_cons_of_mem _ (ih _ _ hm)
    · rw [if_neg h1] at h
      by_cases h2 : nkey a = []
      · rw [if_pos h2] at h
        rcases List.mem_cons.mp h with rfl | hm
        · exact List.mem_cons_self _ _
        · exact List.mem_cons_of_mem _ (ih _ _ hm)
      · rw [if_neg h2] at h
        exact List.mem_cons_of_mem _ (ih _ _ h)

theorem dedupeAux_not_mem_of_seen :
    ∀ (seen : List PyStr) (xs : List ModelInfo) (r : ModelInfo),
      nkey r ≠ [] → nkey r ∈ seen → r ∉ dedupeAux seen xs := by
  intro seen xs
  induction xs generalizing seen with
  | nil => intro r _ _ h; simp [dedupeAux] at h
  | cons a rs ih =>
    intro r hk hseen h
    simp only [dedupeAux] at h
    by_cases h1 : nkey a ≠ [] ∧ nkey a ∉ seen
    · rw [if_pos h1] at h
      rcases List.mem_cons.mp h with rfl | hm
      · exact h1.2 hseen
      · exact ih _ r hk (List.mem_cons_of_mem _ hseen) hm
    · rw [if_neg h1] at h
      by_cases h2 : nkey a = []
      · rw [if_pos h2] at h
        rcases List.mem_cons.mp h with rfl | hm
        · exact hk h2
        · exact ih _ r hk hseen hm
      · rw [if_neg h2] at h
        exact ih _ r hk hseen h

theorem dedupeAux_append :
    ∀ (seen : List PyStr) (xs ys : List ModelInfo),
      dedupeAux seen (xs ++ ys) =
        dedupeAux seen xs ++ dedupeAux (dedupeSeen seen xs) ys := by
  intro seen xs
  induction xs generalizing seen with
  | nil => intro ys; simp [dedupeAux, dedupeSeen]
  | cons a rs ih =>
    intro ys
    simp only [List.cons_append, dedupeAux, dedupeSeen, List.append_eq]
    by_cases h1 : nkey a ≠ [] ∧ nkey a ∉ seen
    · rw [if_pos h1, if_pos h1, if_pos h1, ih, List.cons_append]
    · rw [if_neg h1, if_neg h1, if_neg h1]
      by_cases h2 : nkey a = []
      · rw [if_pos h2, if_pos h2, ih, List.cons_append]
      · rw [if_neg h2, if_neg h2, ih]

theorem mem_dedupeSeen :
    ∀ (seen : List PyStr) (xs : List ModelInfo) (k : PyStr),
      k ∈ dedupeSeen seen xs → k ∈ seen ∨ ∃ c ∈ xs, nkey c = k := by
  intro seen xs
  induction xs generalizing seen with
  | nil => intro k h; exact Or.inl (by simpa [dedupeSeen] using h)
  | cons a rs ih =>
    intro k h
    simp only [dedupeSeen] at h
    by_cases h1 : nkey a ≠ [] ∧ nkey a ∉ seen
    · rw [if_pos h1] at h
      rcases ih _ _ h with hin | ⟨c, hc, hck⟩
      · rcases List.mem_cons.mp hin with rfl | hin
        · exact Or.inr ⟨a, List.mem_cons_self _ _, rfl⟩
        · exact Or.inl hin
      · exact Or.inr ⟨c, List.mem_cons_of_mem _ hc, hck⟩
    · rw [if_neg h1] at h
      rcases ih _ _ h with hin | ⟨c, hc, hck⟩
      · exact Or.inl hin
      · exact Or.inr ⟨c, List.mem_cons_of_mem _ hc, hck⟩

theorem dedupeAux_mem_first :
    ∀ (l1 : List ModelInfo) (seen : List PyStr) (A : ModelInfo)
      (rest : List ModelInfo),
      nkey A ≠ [] → nkey A ∉ seen → (∀ c ∈ l1, nkey c ≠ nkey A) →
      A ∈ dedupeAux seen (l1 ++ A :: rest) := by
  intro l1
  induction l1 with
  | nil =>
    intro seen A rest hk hs _
    simp only [List.nil_append, dedupeAux]
    rw [if_pos ⟨hk, hs⟩]
    exact List.mem_cons_self _ _
  | cons c l1 ih =>
    intro seen A rest hk hs hall
    simp only [List.cons_append, dedupeAux]
    have hcA : nkey c ≠ nkey A := hall c (List.mem_cons_self _ _)
    have hall2 : ∀ d ∈ l1, nkey d ≠ nkey A := fun d hd =>
      hall d (List.mem_cons_of_mem _ hd)
    by_cases h1 : nkey c ≠ [] ∧ nkey c ∉ seen
    · rw [if_pos h1]
      have : nkey A ∉ nkey c :: seen := by
        intro hmem
        rcases List.mem_cons.mp hmem with heq | hmem
        · exact hcA heq.symm
        · exact hs hmem
      exact List.mem_cons_of_mem _ (ih _ _ _ hk this hall2)
    · rw [if_neg h1]
      by_cases h2 : nkey c = []
      · rw [if_pos h2]
        exact List.mem_cons_of_mem _ (ih _ _ _ hk hs hall2)
      · rw [if_neg h2]
        exact ih _ _ _ hk hs hall2

theorem dedupeAux_key_not_seen :
    ∀ (seen : List PyStr) (xs : List ModelInfo) (r : ModelInfo),
      r ∈ dedupeAux seen xs → nkey r ≠ [] → nkey r ∉ seen := by
  intro seen xs r hr hk hs
  exact dedupeAux_not_mem_of_seen seen xs r hk hs hr

theorem dedupeAux_pairwise :
    ∀ (seen : List PyStr) (xs : List ModelInfo),
      List.Pairwise (fun a b => nkey a ≠ [] → nkey a ≠ nkey b)
        (dedupeAux seen xs) := by
  intro seen xs
  induction xs generalizing seen with
  | nil => simp [dedupeAux]
  | cons a rs ih =>
    simp only [dedupeAux]
    by_cases h1 : nkey a ≠ [] ∧ nkey a ∉ seen
    · rw [if_pos h1]
      refine List.Pairwise.cons ?_ (ih _)
      intro b hb hka heq
      have hkb : nkey b ≠ [] := by rw [← heq]; exact hka
      have := dedupeAux_key_not_seen _ _ _ hb hkb
      exact this (by rw [← heq]; exact List.mem_cons_self _ _)
    · rw [if_neg h1]
      by_cases h2 : nkey a = []
      · rw [if_pos h2]
        refine List.Pairwise.cons ?_ (ih _)
        intro b _ hka
        exact absurd h2 hka
      · rw [if_neg h2]
        exact ih _

theorem dedupeAux_of_fresh :
    ∀ (ys : List ModelInfo) (seen : List PyStr),
      (∀ r ∈ ys, nkey r ≠ [] → nkey r ∉ seen) →
      List.Pairwise (fun a b => nkey a ≠ [] → nkey a ≠ nkey b) ys →
      dedupeAux seen ys = ys := by
  intro ys
  induction ys with
  | nil => intro seen _ _; simp [dedupeAux]
  | cons a rs ih =>
    intro seen hfresh hpw
    simp only [dedupeAux]
    rcases List.pairwise_cons.mp hpw with ⟨hhead, htail⟩
    by_cases h2 : nkey a = []
    · have h1 : ¬(nkey a ≠ [] ∧ nkey a ∉ seen) := by
        intro h; exact h.1 h2
      rw [if_neg h1, if_pos h2]
      congr 1
      refine ih seen ?_ htail
      intro r hr
      exact hfresh r (List.mem_cons_of_mem _ hr)
    · have h1 : nkey a ≠ [] ∧ nkey a ∉ seen :=
        ⟨h2, hfresh a (List.mem_cons_self _ _) h2⟩
      rw [if_pos h1]
      congr 1
      refine ih _ ?_ htail
      intro r hr hkr hmem
      rcases List.mem_cons.mp hmem with heq | hmem
      · exact (hhead r hr h2) heq.symm
      · exact hfresh r (List.mem_cons_of_mem _ hr) hkr hmem

theorem mem_dedupeSeen_self :
    ∀ (l1 : List ModelInfo) (seen : List PyStr) (A : ModelInfo),
      nkey A ≠ [] → nkey A ∈ dedupeSeen seen (l1 ++ [A]) := by
  intro l1
  induction l1 with
  | nil =>
    intro seen A hk
    simp only [List.nil_append, dedupeSeen]
    by_cases h1 : nkey A ≠ [] ∧ nkey A ∉ seen
    · rw [if_pos h1]
      exact List.mem_cons_self _ _
    · rw [if_neg h1]
      rcases not_and_or.mp h1 with h | h
      · exact absurd hk h
      · exact not_not.mp h
  | cons c l1 ih =>
    intro seen A hk
    simp only [List.cons_append, dedupeSeen]
    by_cases h1 : nkey c ≠ [] ∧ nkey c ∉ seen
    · rw [if_pos h1]; exact ih _ _ hk
    · rw [if_neg h1]; exact ih _ _ hk

/-- **C9** (confirmed).  Deduplication is idempotent: running the
cross-page dedup of `fetch_modelscope_models` on its own output drops
nothing further and returns the output unchanged. -/
theorem c9_dedupe_idempotent (xs : List ModelInfo) :
    dedupe (dedupe xs) = dedupe xs := by
  unfold dedupe
  refine dedupeAux_of_fresh _ _ ?_ (dedupeAux_pairwise [] xs)
  intro r _ _
  exact List.not_mem_nil _

/-- **C1** (amended).  First-occurrence-wins for the cross-page dedup of
`fetch_modelscope_models`: when `A` precedes `B`, both share the same
non-empty normalization key, `B ≠ A`, and `A` is the first record of the
list carrying that key, the output keeps `A` unchanged, drops `B`, and
contains only records of the input (no merging of field values). -/
theorem c1_first_wins_amended (l1 l2 l3 : List ModelInfo) (A B : ModelInfo)
    (hk : nkey A ≠ []) (hAB : nkey B = nkey A) (hne : B ≠ A)
    (hfirst : ∀ c ∈ l1, nkey c ≠ nkey A) :
    A ∈ dedupe (l1 ++ A :: (l2 ++ B :: l3)) ∧
    B ∉ dedupe (l1 ++ A :: (l2 ++ B :: l3)) ∧
    ∀ r ∈ dedupe (l1 ++ A :: (l2 ++ B :: l3)), r ∈ l1 ++ A :: (l2 ++ B :: l3) := by
  refine ⟨?_, ?_, ?_⟩
  · exact dedupeAux_mem_first l1 [] A _ hk (List.not_mem_nil _) hfirst
  · intro hB
    unfold dedupe at hB
    rw [show l1 ++ A :: (l2 ++ B :: l3) = (l1 ++ [A]) ++ (l2 ++ B :: l3) by
      simp] at hB
    rw [dedupeAux_append] at hB
    rcases List.mem_append.mp hB with h | h
    · rcases List.mem_append.mp (dedupeAux_subset _ _ _ h) with h | h
      · exact hfirst B h hAB
      · exact hne (List.mem_singleton.mp h)
    · have hmem : nkey B ∈ dedupeSeen [] (l1 ++ [A]) := by
        rw [hAB]; exact mem_dedupeSeen_self l1 [] A hk
      exact dedupeAux_not_mem_of_seen _ _ _ (hAB ▸ hk) hmem h
  · intro r hr
    exact dedupeAux_subset _ _ _ hr

/-- **C1 counterexample**.  With three assembled records `C`, `A`, `B`
sharing the non-empty key `"x"`, `A` precedes `B` and both carry the same
key, yet the deduplicated output contains neither `A` nor `B` (only `C`,
the true first occurrence), refuting the claim as stated for the pair
`(A, B)`. -/
theorem c1_counterexample :
    nkey cexA = nkey cexB ∧ nkey cexA ≠ [] ∧ cexA ≠ cexB ∧
    dedupe [cexC, cexA, cexB] = [cexC] ∧
    cexA ∉ dedupe [cexC, cexA, cexB] := by decide

/-- Witness for C1: at the concrete records `A`, `B` the amended theorem
yields `dedupe [A, B] ∋ A` and `B ∉ dedupe [A, B]`. -/
theorem c1_witness :
    cexA ∈ dedupe [cexA, cexB] ∧ cexB ∉ dedupe [cexA, cexB] := by
  have h := c1_first_wins_amended [] [] [] cexA cexB (by decide) (by decide)
    (by decide) (by simp)
  exact ⟨h.1, h.2.1⟩

/-! ### Lemmas about `validate_and_clean_models` -/

theorem validateAux_mem :
    ∀ (seen : List PyStr) (ms : List VModel) (r : VOut),
      r ∈ validateAux seen ms →
      (∃ m ∈ ms,
        r.model = (if pyStrip m.model ≠ [] then pyStrip m.model else pyStrip m.id) ∧
        r.id = pyStrip m.id ∧ r.context = vContext m.context ∧
        ¬(pyStrip m.model = [] ∧ pyStrip m.id = [])) ∧
      vKey r ∉ seen := by
  intro seen ms
  induction ms generalizing seen with
  | nil => intro r h; simp [validateAux] at h
  | cons m rest ih =>
    intro r h
    simp only [validateAux] at h
    by_cases h1 : pyStrip m.model = [] ∧ pyStrip m.id = []
    · rw [if_pos h1] at h
      rcases ih _ _ h with ⟨⟨m2, hm2, hp⟩, hk⟩
      exact ⟨⟨m2, List.mem_cons_of_mem _ hm2, hp⟩, hk⟩
    · rw [if_neg h1] at h
      by_cases h2 : lowerStr (if pyStrip m.id ≠ [] then pyStrip m.id else pyStrip m.model) = [] ∨
          lowerStr (if pyStrip m.id ≠ [] then pyStrip m.id else pyStrip m.model) ∈ seen
      · rw [if_pos h2] at h
        rcases ih _ _ h with ⟨⟨m2, hm2, hp⟩, hk⟩
        exact ⟨⟨m2, List.mem_cons_of_mem _ hm2, hp⟩, hk⟩
      · rw [if_neg h2] at h
        rcases List.mem_cons.mp h with rfl | hmem
        · refine ⟨⟨m, List.mem_cons_self _ _, rfl, rfl, rfl, h1⟩, ?_⟩
          have hv : vKey
              { model := if pyStrip m.model ≠ [] then pyStrip m.model else pyStrip m.id,
                id := pyStrip m.id, context := vContext m.context } =
              lowerStr (if pyStrip m.id ≠ [] then pyStrip m.id else pyStrip m.model) := by
            by_cases hid : pyStrip m.id ≠ []
            · simp [vKey, hid]
            · have hname : pyStrip m.model ≠ [] := by
                intro hn
                exact h1 ⟨hn, not_not.mp hid⟩
              simp [vKey, hid, hname, not_not.mp hid]
          rw [hv]
          intro hmem
          exact h2 (Or.inr hmem)
        · rcases ih _ _ hmem with ⟨⟨m2, hm2, hp⟩, hk⟩
          refine ⟨⟨m2, List.mem_cons_of_mem _ hm2, hp⟩, ?_⟩
          intro hin
          exact hk (List.mem_cons_of_mem _ hin)

theorem validateAux_key_ne :
    ∀ (seen : List PyStr) (ms : List VModel) (r : VOut),
      r ∈ validateAux seen ms → vKey r ≠ [] := by
  intro seen ms
  induction ms generalizing seen with
  | nil => intro r h; simp [validateAux] at h
  | cons m rest ih =>
    intro r h
    simp only [validateAux] at h
    by_cases h1 : pyStrip m.model = [] ∧ pyStrip m.id = []
    · rw [if_pos h1] at h; exact ih _ _ h
    · rw [if_neg h1] at h
      by_cases h2 : lowerStr (if pyStrip m.id ≠ [] then pyStrip m.id else pyStrip m.model) = [] ∨
          lowerStr (if pyStrip m.id ≠ [] then pyStrip m.id else pyStrip m.model) ∈ seen
      · rw [if_pos h2] at h; exact ih _ _ h
      · rw [if_neg h2] at h
        rcases List.mem_cons.mp h with rfl | hmem
        · have hk2 := not_or.mp h2
          by_cases hid : pyStrip m.id ≠ []
          · simpa [vKey, hid] using hk2.1
          · have hname : pyStrip m.model ≠ [] := by
              intro hn
              exact h1 ⟨hn, not_not.mp hid⟩
            simpa [vKey, hid, hname, not_not.mp hid] using hk2.1
        · exact ih _ _ hmem

/-- **C5** (amended).  In the cross-page dedup of `fetch_modelscope_models`
an empty-key record is passed straight through without consulting or
extending the seen-key set; in the per-record dedup of `parse_html_file`
an empty-key record is dropped; and `validate_and_clean_models` never emits
an entry with an empty key (its empty-key branch likewise skips the
record). -/
theorem c5_emptykey_amended :
    (∀ (seen : List PyStr) (r : ModelInfo) (rs : List ModelInfo),
        nkey r = [] → dedupeAux seen (r :: rs) = r :: dedupeAux seen rs) ∧
    (∀ (seen : List PyStr) (r : ModelInfo) (rs : List ModelInfo),
        nkey r = [] → htmlDedupeAux seen (r :: rs) = htmlDedupeAux seen rs) ∧
    (∀ (ms : List VModel) (r : VOut),
        r ∈ validate_and_clean_models ms → vKey r ≠ []) := by
  refine ⟨?_, ?_, ?_⟩
  · intro seen r rs h
    simp [dedupeAux, h]
  · intro seen r rs h
    simp [htmlDedupeAux, h]
  · intro ms r h
    exact validateAux_key_ne [] ms r h

/-- **C5 counterexample**.  The record with identifier `" "` is accepted by
assembly (its identifier is non-empty as a string) and has an empty
normalization key; the dedup stage of `parse_html_file` *drops* it rather
than passing it through, while the cross-page dedup of
`fetch_modelscope_models` does pass it through. -/
theorem c5_counterexample :
    assembleHtml { id := some ((" ").data) } = some cexE ∧
    nkey cexE = [] ∧ htmlDedupe [cexE] = [] ∧ dedupe [cexE] = [cexE] := by
  decide

/-- Witness for C5: the amended pass-through/drop equations at the concrete
empty-key record. -/
theorem c5_witness :
    dedupeAux [] [cexE] = cexE :: dedupeAux [] [] ∧
    htmlDedupeAux [] [cexE] = htmlDedupeAux [] [] := by
  exact ⟨c5_emptykey_amended.1 [] cexE [] (by decide),
    c5_emptykey_amended.2.1 [] cexE [] (by decide)⟩

/-! ### Lemmas about the keyword tagger -/

theorem acceptOcc_empty (text kw : PyStr) (occ : Nat × Nat) :
    acceptOcc text kw [] occ = boundaryOk text occ := by
  simp [acceptOcc, inMatchedRange, overlapsAny, adjacentToLonger]

theorem tagLoop_cons_none (text : PyStr) (matched : List (Nat × Nat))
    (kw : PyStr) (rest : List PyStr)
    (h : findValidMatch text kw matched = none) :
    tagLoop text matched (kw :: rest) = tagLoop text matched rest := by
  simp [tagLoop, h]

theorem tagLoop_cons_some (text : PyStr) (matched : List (Nat × Nat))
    (kw : PyStr) (rest : List PyStr) (o : Nat × Nat)
    (h : findValidMatch text kw matched = some o) :
    tagLoop text matched (kw :: rest) = some kw := by
  simp [tagLoop, h]

theorem findValidMatch_none_of_no_occ (text kw : PyStr)
    (h : findIter text kw = []) : findValidMatch text kw [] = none := by
  simp [findValidMatch, h]

theorem findValidMatch_isSome_of_valid (text kw : PyStr) (occ : Nat × Nat)
    (hocc : occ ∈ findIter text kw) (hb : boundaryOk text occ = true) :
    (findValidMatch text kw []).isSome = true := by
  unfold findValidMatch
  rcases hf : (findIter text kw).find? (acceptOcc text kw []) with _ | o
  · exfalso
    have hn := List.find?_eq_none.mp hf occ hocc
    rw [acceptOcc_empty] at hn
    exact hn hb
  · simp

theorem tagLoop_some_imp :
    ∀ (vocab : List PyStr) (text p : PyStr) (matched : List (Nat × Nat)),
      tagLoop text matched vocab = some p →
      ∃ occ ∈ findIter text p, acceptOcc text p matched occ = true := by
  intro vocab
  induction vocab with
  | nil => intro text p matched h; simp [tagLoop] at h
  | cons kw rest ih =>
    intro text p matched h
    rcases hf : findValidMatch text kw matched with _ | o
    · rw [tagLoop_cons_none _ _ _ _ hf] at h
      exact ih _ _ _ h
    · rw [tagLoop_cons_some _ _ _ _ _ hf] at h
      cases h
      unfold findValidMatch at hf
      exact ⟨o, List.mem_of_find?_eq_some hf, List.find?_some hf⟩

theorem latin_not_boundary_char (c : Char) (h : isLatin c = true) :
    isPySpace c = false ∧ isSepPunct c = false ∧ isCJK c = false := by
  simp only [isLatin, Bool.or_eq_true, Bool.and_eq_true, decide_eq_true_eq] at h
  refine ⟨?_, ?_, ?_⟩
  · rw [Bool.eq_false_iff]
    intro hx
    simp only [isPySpace, Bool.or_eq_true, beq_iff_eq] at hx
    omega
  · rw [Bool.eq_false_iff]
    intro hx
    simp only [isSepPunct, Bool.or_eq_true, beq_iff_eq] at hx
    omega
  · rw [Bool.eq_false_iff]
    intro hx
    simp only [isCJK, Bool.and_eq_true, decide_eq_true_eq] at hx
    omega

theorem not_boundaryOk_of_latinTouch (text : PyStr) (occ : Nat × Nat)
    (h : latinTouch text occ) : boundaryOk text occ = false := by
  rw [Bool.eq_false_iff]
  intro hx
  simp only [boundaryOk] at hx
  rw [Bool.and_eq_true] at hx
  rcases h with ⟨hpos, hlat⟩ | ⟨hlt, hlat⟩
  · obtain ⟨hs, hp, hc⟩ := latin_not_boundary_char _ hlat
    have hbc : beforeChar text occ.1 = text.getD (occ.1 - 1) ' ' :=
      if_pos hpos
    have h0 : (occ.1 == 0) = false := by
      simp only [beq_eq_false_iff_ne]
      omega
    have h1 := hx.1
    rw [hbc, h0, hs, hp, hc] at h1
    simp at h1
  · obtain ⟨hs, hp, hc⟩ := latin_not_boundary_char _ hlat
    have hac : afterChar text occ.2 = text.getD occ.2 ' ' := if_pos hlt
    have h2 := hx.2
    rw [hac, hs, hp, hc] at h2
    simp only [Bool.or_false, decide_eq_true_eq] at h2
    omega

/-- **C2** (amended).  When the left-to-right scan finds no occurrence of
the higher-priority phrase `文字生成图片` and finds at least one occurrence
of `文本生成图片` whose two boundaries are each a text boundary, whitespace,
a listed punctuation mark or a CJK character, the tagger returns
`文本生成图片` — and in particular never `文本生成`. -/
theorem c2_tagger_amended (text : PyStr)
    (h1 : findIter text (("文字生成图片").data) = [])
    (h2 : ∃ occ ∈ findIter text (("文本生成图片").data),
      boundaryOk text occ = true) :
    tagText text = some (("文本生成图片").data) ∧
    tagText text ≠ some (("文本生成").data) := by
  obtain ⟨occ, hocc, hb⟩ := h2
  have hmain : tagText text = some (("文本生成图片").data) := by
    unfold tagText tagWith taskKeywords
    rw [tagLoop_cons_none _ _ _ _ (findValidMatch_none_of_no_occ _ _ h1)]
    obtain ⟨o, ho⟩ := Option.isSome_iff_exists.mp
      (findValidMatch_isSome_of_valid text (("文本生成图片").data) occ hocc hb)
    exact tagLoop_cons_some _ _ _ _ _ ho
  refine ⟨hmain, ?_⟩
  rw [hmain]
  intro hcontra
  have := Option.some.inj hcontra
  exact absurd this (by decide)

/-- **C2 counterexample**.  The text `a文本生成图片的文本生成` contains the
phrase `文本生成图片` as a literal substring and holds no whitespace and no
punctuation at all, yet the tagger returns `文本生成` (the long phrase's
only occurrence touches the Latin letter `a`, so it is rejected and the
search continues to the shorter phrase), refuting both halves of the claim. -/
theorem c2_counterexample :
    containsSub cexTagText (("文本生成图片").data) = true ∧
    cexTagText.all (fun c => !(isPySpace c) && !(isSepPunct c)) = true ∧
    tagText cexTagText = some (("文本生成").data) := by
  decide

/-- Witness for C2: on the text `文本生成图片` itself the amended theorem
applies and yields the tag `文本生成图片`. -/
theorem c2_witness :
    tagText (("文本生成图片").data) = some (("文本生成图片").data) := by
  exact (c2_tagger_amended (("文本生成图片").data) (by decide)
    ⟨(0, 6), by decide, by decide⟩).1

/-- **C6** (confirmed).  A tag is only ever produced from an occurrence
whose two boundaries pass the boundary test; a single-phrase vocabulary
whose every occurrence touches a Latin letter yields no tag; and the
phrase surrounded by spaces is tagged. -/
theorem c6_boundary_rule :
    (∀ (vocab : List PyStr) (text p : PyStr), tagWith vocab text = some p →
      ∃ occ ∈ findIter text p, boundaryOk text occ = true) ∧
    (∀ (p text : PyStr), (∀ occ ∈ findIter text p, latinTouch text occ) →
      tagWith [p] text = none) ∧
    tagWith [("AB").data] (("X AB Y").data) = some (("AB").data) := by
  refine ⟨?_, ?_, by decide⟩
  · intro vocab text p h
    obtain ⟨occ, hocc, hacc⟩ := tagLoop_some_imp vocab text p [] h
    rw [acceptOcc_empty] at hacc
    exact ⟨occ, hocc, hacc⟩
  · intro p text h
    unfold tagWith
    rcases hf : findValidMatch text p [] with _ | o
    · simp [tagLoop, hf]
    · exfalso
      unfold findValidMatch at hf
      have hmem := List.mem_of_find?_eq_some hf
      have hacc := List.find?_some hf
      rw [acceptOcc_empty] at hacc
      rw [not_boundaryOk_of_latinTouch text o (h o hmem)] at hacc
      exact Bool.false_ne_true hacc

/-- Witness for C6: for the vocabulary `["AB"]` and the text `XABY` every
occurrence of the phrase touches a Latin letter, so no tag is returned. -/
theorem c6_witness : tagWith [("AB").data] (("XABY").data) = none := by
  exact c6_boundary_rule.2.1 (("AB").data) (("XABY").data) (by decide)

/-- **C3 counterexample**.  The implementation recognizes the letters
anywhere, not only as a final suffix: on `"1K5"` it strips the `K` and
returns 15000, where the claim's end-suffix reading yields `none`. -/
theorem c3_counterexample :
    parse_magnitude (("1K5").data) = some 15000 ∧
    parse_magnitude_claim (("1K5").data) = none := by decide

/-- **C3** (amended).  The three documented values hold; the letters
`K`/`M`/`B` are recognized case-insensitively *anywhere* in the string
(tested in that order, every occurrence removed before the numeral parse,
e.g. `"1K5"` parses to 15000); and a string containing none of the three
letters is parsed directly with truncation, `none` on failure. -/
theorem c3_magnitude_amended :
    parse_magnitude (("19.3k").data) = some 19300 ∧
    parse_magnitude (("2M").data) = some 2000000 ∧
    parse_magnitude (("abc").data) = none ∧
    parse_magnitude (("1K5").data) = some 15000 ∧
    (∀ s : PyStr, containsSub (upperStr s) (['K']) = false →
      containsSub (upperStr s) (['M']) = false →
      containsSub (upperStr s) (['B']) = false →
      parse_magnitude s = (pyFloat (upperStr s)).map (fun p => truncVal p.1 p.2)) := by
  refine ⟨by decide, by decide, by decide, by decide, ?_⟩
  intro s h1 h2 h3
  simp [parse_magnitude, h1, h2, h3]

/-- Witness for C3: the suffix-free branch of the amended theorem at the
numeral `"7"`. -/
theorem c3_witness : parse_magnitude (("7").data) = some 7 := by
  rw [c3_magnitude_amended.2.2.2.2 (("7").data) (by decide) (by decide) (by decide)]
  decide

/-! ### Lemmas about assembly -/

theorem optFalsy_eq_false (o : Option PyStr) :
    optFalsy o = false ↔ ∃ v, o = some v ∧ v ≠ [] := by
  cases o with
  | none => simp [optFalsy]
  | some v =>
    simp [optFalsy, beq_eq_false_iff_ne, List.length_eq_zero]

theorem rssAssemble_none_iff (item : PyStr) :
    rssIdOf item = [] ↔ rssAssemble item = none := by
  unfold rssAssemble
  by_cases h : rssIdOf item = []
  · simp [h]
  · simp [h]

theorem rssAssemble_some_fields (item : PyStr) (r : RssModel)
    (h : rssAssemble item = some r) : r.id ≠ [] ∧ r.name ≠ [] := by
  unfold rssAssemble at h
  by_cases hid : rssIdOf item = []
  · rw [if_pos hid] at h
    exact absurd h (by simp)
  · rw [if_neg hid] at h
    cases h
    refine ⟨hid, ?_⟩
    by_cases hn : (rssTitleInfo item).2.1 ≠ []
    · simp [hn]
    · simpa [hn] using hid

theorem parseRssAux_cons_none (seen : List PyStr) (it : PyStr)
    (rest : List PyStr) (h : rssAssemble it = none) :
    parseRssAux seen (it :: rest) = parseRssAux seen rest := by
  simp [parseRssAux, h]

theorem parseRssAux_cons_seen (seen : List PyStr) (it : PyStr)
    (rest : List PyStr) (r0 : RssModel) (h : rssAssemble it = some r0)
    (hk : lowerStr r0.id ∈ seen) :
    parseRssAux seen (it :: rest) = parseRssAux seen rest := by
  simp [parseRssAux, h, hk]

theorem parseRssAux_cons_new (seen : List PyStr) (it : PyStr)
    (rest : List PyStr) (r0 : RssModel) (h : rssAssemble it = some r0)
    (hk : lowerStr r0.id ∉ seen) :
    parseRssAux seen (it :: rest) = r0 :: parseRssAux (lowerStr r0.id :: seen) rest := by
  simp [parseRssAux, h, hk]

theorem parseRssAux_mem :
    ∀ (seen : List PyStr) (items : List PyStr) (r : RssModel),
      r ∈ parseRssAux seen items → ∃ it ∈ items, rssAssemble it = some r := by
  intro seen items
  induction items generalizing seen with
  | nil => intro r h; simp [parseRssAux] at h
  | cons it rest ih =>
    intro r h
    rcases ha : rssAssemble it with _ | r0
    · rw [parseRssAux_cons_none _ _ _ ha] at h
      obtain ⟨it2, h2, h3⟩ := ih _ _ h
      exact ⟨it2, List.mem_cons_of_mem _ h2, h3⟩
    · by_cases hk : lowerStr r0.id ∈ seen
      · rw [parseRssAux_cons_seen _ _ _ _ ha hk] at h
        obtain ⟨it2, h2, h3⟩ := ih _ _ h
        exact ⟨it2, List.mem_cons_of_mem _ h2, h3⟩
      · rw [parseRssAux_cons_new _ _ _ _ ha hk] at h
        rcases List.mem_cons.mp h with rfl | hmem
        · exact ⟨it, List.mem_cons_self _ _, ha⟩
        · obtain ⟨it2, h2, h3⟩ := ih _ _ hmem
          exact ⟨it2, List.mem_cons_of_mem _ h2, h3⟩

theorem optFalsy_true_iff (o : Option PyStr) :
    optFalsy o = true ↔ pyGet o = [] := by
  cases o with
  | none => simp [optFalsy, pyGet]
  | some v => simp [optFalsy, pyGet, List.length_eq_zero]

theorem assembleHtml_both (m : ModelInfo) (hi : optFalsy m.id = true)
    (hn : optFalsy m.name = true) : assembleHtml m = none := by
  simp [assembleHtml, hi, hn]

theorem assembleHtml_fill_id (m : ModelInfo) (hi : optFalsy m.id = true)
    (hn : optFalsy m.name = false) :
    assembleHtml m = some { m with id := some (pyGet m.name) } := by
  simp [assembleHtml, hi, hn]

theorem assembleHtml_fill_name (m : ModelInfo) (hi : optFalsy m.id = false)
    (hn : optFalsy m.name = true) :
    assembleHtml m = some { m with name := some (pyGet m.id) } := by
  simp [assembleHtml, hi, hn]

theorem assembleHtml_keep (m : ModelInfo) (hi : optFalsy m.id = false)
    (hn : optFalsy m.name = false) : assembleHtml m = some m := by
  simp [assembleHtml, hi, hn]

/-- **C4** (amended).  HTML path: assembly rejects a partial record iff
identifier and name are both missing/empty, and fills the missing one from
the present one, so every kept record has non-empty id and name.  RSS path:
an item is rejected iff its identifier is empty after the link and guid
fallbacks — even when a name is present — and the name (never the id) is
filled from the identifier; every kept RSS record likewise has non-empty id
and name. -/
theorem c4_assembly_amended :
    (∀ m : ModelInfo, assembleHtml m = none ↔
      (optFalsy m.id = true ∧ optFalsy m.name = true)) ∧
    (∀ m r : ModelInfo, assembleHtml m = some r →
      pyGet r.id ≠ [] ∧ pyGet r.name ≠ [] ∧
      (optFalsy m.id = true → r.id = some (pyGet m.name)) ∧
      (optFalsy m.name = true → r.name = some (pyGet m.id))) ∧
    (∀ item : PyStr, rssIdOf item = [] ↔ rssAssemble item = none) ∧
    (∀ (xml : PyStr) (r : RssModel), r ∈ parse_rss_xml xml →
      r.id ≠ [] ∧ r.name ≠ []) := by
  refine ⟨?_, ?_, rssAssemble_none_iff, ?_⟩
  · intro m
    constructor
    · intro h
      cases hi : optFalsy m.id with
      | true =>
        cases hn : optFalsy m.name with
        | true => exact ⟨rfl, rfl⟩
        | false => rw [assembleHtml_fill_id m hi hn] at h; simp at h
      | false =>
        cases hn : optFalsy m.name with
        | true => rw [assembleHtml_fill_name m hi hn] at h; simp at h
        | false => rw [assembleHtml_keep m hi hn] at h; simp at h
    · intro ⟨hi, hn⟩
      exact assembleHtml_both m hi hn
  · intro m r h
    cases hi : optFalsy m.id with
    | true =>
      cases hn : optFalsy m.name with
      | true =>
        rw [assembleHtml_both m hi hn] at h
        simp at h
      | false =>
        have hnv : pyGet m.name ≠ [] := by
          intro hc
          rw [(optFalsy_true_iff m.name).mpr hc] at hn
          simp at hn
        rw [assembleHtml_fill_id m hi hn] at h
        have hr := Option.some.inj h
        subst hr
        refine ⟨by simpa [pyGet] using hnv, by simpa [pyGet] using hnv,
          fun _ => rfl, fun hc => ?_⟩
        simp at hc
    | false =>
      have hiv : pyGet m.id ≠ [] := by
        intro hc
        rw [(optFalsy_true_iff m.id).mpr hc] at hi
        simp at hi
      cases hn : optFalsy m.name with
      | true =>
        rw [assembleHtml_fill_name m hi hn] at h
        have hr := Option.some.inj h
        subst hr
        refine ⟨hiv, by simpa [pyGet] using hiv, fun hc => ?_, fun _ => rfl⟩
        simp at hc
      | false =>
        have hnv : pyGet m.name ≠ [] := by
          intro hc
          rw [(optFalsy_true_iff m.name).mpr hc] at hn
          simp at hn
        rw [assembleHtml_keep m hi hn] at h
        have hr := Option.some.inj h
        subst hr
        refine ⟨hiv, hnv, fun hc => ?_, fun hc => ?_⟩
        · simp at hc
        · simp at hc
  · intro xml r h
    obtain ⟨it, _, ha⟩ := parseRssAux_mem [] (rssItems xml) r h
    exact rssAssemble_some_fields it r ha

/-- **C4 counterexample**.  An RSS item whose title is a bare name (no
parenthesized id, no link, no guid) has a non-empty extracted name and an
empty identifier; the claim requires it to be kept with the id copied from
the name, but `parse_rss_xml` rejects it and yields an empty catalog. -/
theorem c4_counterexample :
    rssItems cexXml = [(("<title>SoloName</title>").data)] ∧
    (rssTitleInfo (("<title>SoloName</title>").data)).2.1 = (("SoloName").data) ∧
    rssIdOf (("<title>SoloName</title>").data) = [] ∧
    parse_rss_xml cexXml = [] := by decide

/-- Witness for C4: the amended HTML-assembly clause at a record holding
only the identifier `"x"` — the name is filled and both fields end
non-empty. -/
theorem c4_witness :
    pyGet ({ id := some (("x").data), name := some (("x").data) } : ModelInfo).id ≠ [] ∧
    pyGet ({ id := some (("x").data), name := some (("x").data) } : ModelInfo).name ≠ [] := by
  have h := c4_assembly_amended.2.1 { id := some (("x").data) }
    { id := some (("x").data), name := some (("x").data) } (by decide)
  exact ⟨h.1, h.2.1⟩

/-- **C8** (confirmed).  The extraction core is a total function of the
input markup (all field- and fragment-level failures are absorbed into
absent fields or skipped fragments in the model): an input with zero
fragments — in particular the empty string — yields an empty catalog on
both the RSS path and the HTML path, never an error. -/
theorem c8_no_raise :
    (∀ xml : PyStr, rssItems xml = [] → parse_rss_xml xml = []) ∧
    (∀ content : PyStr, blocksOf content = [] → parse_html_models content = []) ∧
    parse_rss_xml [] = [] ∧ parse_html_models [] = [] := by
  refine ⟨?_, ?_, by decide, by decide⟩
  · intro xml h
    unfold parse_rss_xml
    rw [h]
    rfl
  · intro content h
    unfold parse_html_models
    rw [h]
    rfl

/-- Witness for C8: a markup string with no fragments yields the empty
catalog. -/
theorem c8_witness : parse_rss_xml (("no items here").data) = [] := by
  exact c8_no_raise.1 _ (by decide)

/-! ### Lemmas about the link/identifier extraction stages -/

theorem nameStage_preserve (m : ModelInfo) (b : PyStr) :
    (nameStage m b).id = m.id ∧ (nameStage m b).link = m.link ∧
    (nameStage m b).organization = m.organization := by
  unfold nameStage
  cases computeName m b <;> exact ⟨rfl, rfl, rfl⟩

theorem descStage_preserve (m : ModelInfo) (b : PyStr) :
    (descStage m b).id = m.id ∧ (descStage m b).link = m.link ∧
    (descStage m b).organization = m.organization := by
  unfold descStage
  cases findTagClass (("div").data) (("desc").data) b with
  | none => exact ⟨rfl, rfl, rfl⟩
  | some t =>
    dsimp only
    split <;> exact ⟨rfl, rfl, rfl⟩

theorem timeStage_preserve (m : ModelInfo) (b : PyStr) :
    (timeStage m b).id = m.id ∧ (timeStage m b).link = m.link ∧
    (timeStage m b).organization = m.organization := by
  unfold timeStage
  cases findIconValue (("icon-maasshijian-time-line1").data) b with
  | none => exact ⟨rfl, rfl, rfl⟩
  | some t =>
    dsimp only
    split <;> exact ⟨rfl, rfl, rfl⟩

theorem dlStage_preserve (m : ModelInfo) (b : PyStr) :
    (dlStage m b).id = m.id ∧ (dlStage m b).link = m.link ∧
    (dlStage m b).organization = m.organization := by
  unfold dlStage
  cases findIconValue (("icon-maasa-zhuangtai216x16").data) b with
  | none => exact ⟨rfl, rfl, rfl⟩
  | some t =>
    dsimp only
    split
    · cases parse_magnitude (pyStrip t) <;> exact ⟨rfl, rfl, rfl⟩
    · exact ⟨rfl, rfl, rfl⟩

theorem starsStage_preserve (m : ModelInfo) (b : PyStr) :
    (starsStage m b).id = m.id ∧ (starsStage m b).link = m.link ∧
    (starsStage m b).organization = m.organization := by
  unfold starsStage
  cases findIconValue (("icon-maasa-shoucangzhuangtai216x16").data) b with
  | none => exact ⟨rfl, rfl, rfl⟩
  | some t =>
    dsimp only
    split
    · cases parse_magnitude (pyStrip t) <;> exact ⟨rfl, rfl, rfl⟩
    · exact ⟨rfl, rfl, rfl⟩

theorem tagStage_preserve (m : ModelInfo) (b : PyStr) :
    (tagStage m b).id = m.id ∧ (tagStage m b).link = m.link ∧
    (tagStage m b).organization = m.organization := by
  unfold tagStage
  cases tagText (flattenText b) <;> exact ⟨rfl, rfl, rfl⟩

theorem extract_core_fields (b : PyStr) :
    (extract_model_info_from_link b).id = (c4Stage (hrefStage b) b).id ∧
    (extract_model_info_from_link b).link = (c4Stage (hrefStage b) b).link ∧
    (extract_model_info_from_link b).organization =
      (c4Stage (hrefStage b) b).organization := by
  unfold extract_model_info_from_link
  obtain ⟨ti, tl, tgo⟩ := tagStage_preserve
    (starsStage (dlStage (timeStage (descStage
      (nameStage (c4Stage (hrefStage b) b) b) b) b) b) b) b
  obtain ⟨si, sl, so⟩ := starsStage_preserve
    (dlStage (timeStage (descStage (nameStage (c4Stage (hrefStage b) b) b) b) b) b) b
  obtain ⟨di, dl2, dor⟩ := dlStage_preserve
    (timeStage (descStage (nameStage (c4Stage (hrefStage b) b) b) b) b) b
  obtain ⟨tmi, tml, tmo⟩ := timeStage_preserve
    (descStage (nameStage (c4Stage (hrefStage b) b) b) b) b
  obtain ⟨dei, del, deo⟩ := descStage_preserve
    (nameStage (c4Stage (hrefStage b) b) b) b
  obtain ⟨ni, nl, no2⟩ := nameStage_preserve (c4Stage (hrefStage b) b) b
  refine ⟨?_, ?_, ?_⟩
  · rw [ti, si, di, tmi, dei, ni]
  · rw [tl, sl, dl2, tml, del, nl]
  · rw [tgo, so, dor, tmo, deo, no2]

theorem c4Stage_preserve_some (m : ModelInfo) (b : PyStr) :
    (m.id.isSome = true → (c4Stage m b).id = m.id) ∧
    ((c4Stage m b).link = m.link) ∧
    (m.organization.isSome = true →
      (c4Stage m b).organization = m.organization) := by
  unfold c4Stage
  cases findC4 b with
  | none => exact ⟨fun _ => rfl, rfl, fun _ => rfl⟩
  | some enc =>
    dsimp only
    split
    · split
      · by_cases ho : m.organization = none
        · rw [if_pos ho]
          by_cases hid : m.id = none
          · rw [if_pos hid]
            refine ⟨fun hc => ?_, rfl, fun hc => ?_⟩
            · rw [hid] at hc; simp at hc
            · rw [ho] at hc; simp at hc
          · rw [if_neg hid]
            refine ⟨fun _ => rfl, rfl, fun hc => ?_⟩
            rw [ho] at hc; simp at hc
        · rw [if_neg ho]
          by_cases hid : m.id = none
          · rw [if_pos hid]
            refine ⟨fun hc => ?_, rfl, fun _ => rfl⟩
            rw [hid] at hc; simp at hc
          · rw [if_neg hid]
            exact ⟨fun _ => rfl, rfl, fun _ => rfl⟩
      · exact ⟨fun _ => rfl, rfl, fun _ => rfl⟩
    · exact ⟨fun _ => rfl, rfl, fun _ => rfl⟩

theorem hrefStage_of_models (b h : PyStr) (hh : findHref b = some h)
    (hpre : matchesAtEx (pyStrip h) modelsMarker 0 = true) :
    hrefStage b =
      { link := some (mscOrigin ++ pyStrip h),
        id := some (pyReplaceDel (pyStrip h) modelsMarker),
        organization :=
          if 2 ≤ (splitChar '/' (pyReplaceDel (pyStrip h) modelsMarker)).length
          then some ((splitChar '/' (pyReplaceDel (pyStrip h) modelsMarker)).headD [])
          else none } := by
  unfold hrefStage
  rw [hh]
  dsimp only
  rw [if_pos hpre]

/-- **C7** (amended).  For every fragment whose first `href` value starts
(after stripping) with `/models/`, the extracted link is the site origin
prepended to the stripped value; the identifier is the stripped value with
*every* occurrence of `"/models/"` removed (the source uses
`str.replace`, not a prefix cut); the organization is the first segment of
that identifier when it splits on `/` into at least two segments; and the
secondary `c4=` rule never overwrites these fields once set. -/
theorem c7_link_rule_amended (b h : PyStr) (hh : findHref b = some h)
    (hpre : matchesAtEx (pyStrip h) modelsMarker 0 = true) :
    (extract_model_info_from_link b).link = some (mscOrigin ++ pyStrip h) ∧
    (extract_model_info_from_link b).id =
      some (pyReplaceDel (pyStrip h) modelsMarker) ∧
    (2 ≤ (splitChar '/' (pyReplaceDel (pyStrip h) modelsMarker)).length →
      (extract_model_info_from_link b).organization =
        some ((splitChar '/' (pyReplaceDel (pyStrip h) modelsMarker)).headD [])) := by
  obtain ⟨ei, el, eo⟩ := extract_core_fields b
  obtain ⟨ci, cl, co⟩ := c4Stage_preserve_some (hrefStage b) b
  have hr := hrefStage_of_models b h hh hpre
  refine ⟨?_, ?_, ?_⟩
  · rw [el, cl, hr]
  · rw [ei, ci (by rw [hr]; rfl), hr]
  · intro hparts
    rw [eo, co ?_, hr]
    · rw [if_pos hparts]
    · rw [hr]
      dsimp only
      rw [if_pos hparts]
      rfl

/-- **C7 counterexample**.  On a fragment with
`href="/models/x/models/y"` the claim's reading predicts the identifier
`x/models/y` (the path tail after the prefix) and organization `x`; the
code instead removes every `/models/` occurrence, yielding identifier
`xy` and no organization. -/
theorem c7_counterexample :
    (extract_model_info_from_link cexBlock).id = some (("xy").data) ∧
    (("xy").data ≠ (("x/models/y").data)) ∧
    (extract_model_info_from_link cexBlock).organization = none := by
  decide

/-- Witness for C7: a well-formed relative reference `/models/o/n` yields
the absolute link, the identifier `o/n` and the organization `o`. -/
theorem c7_witness :
    (extract_model_info_from_link witBlock).id = some (("o/n").data) ∧
    (extract_model_info_from_link witBlock).link =
      some (("https://modelscope.cn/models/o/n").data) ∧
    (extract_model_info_from_link witBlock).organization = some (("o").data) := by
  have h := c7_link_rule_amended witBlock (("/models/o/n").data)
    (by decide) (by decide)
  refine ⟨?_, ?_, ?_⟩
  · rw [h.2.1]; decide
  · rw [h.1]; decide
  · rw [h.2.2 (by decide)]; decide

/-! ### Lemmas about `validate_and_clean_models` output invariants -/

theorem dropWhile_head_not (p : Char → Bool) :
    ∀ (l : PyStr) (c : Char) (tl : PyStr),
      l.dropWhile p = c :: tl → p c = false := by
  intro l
  induction l with
  | nil => intro c tl h; simp at h
  | cons a l ih =>
    intro c tl h
    by_cases hp : p a = true
    · rw [List.dropWhile_cons_of_pos hp] at h
      exact ih _ _ h
    · rw [List.dropWhile_cons_of_neg hp] at h
      cases h
      exact Bool.eq_false_iff.mpr hp

theorem firstDigitRun_spec (s r : PyStr) (h : firstDigitRun s = some r) :
    isFirstDigitRun s r := by
  unfold firstDigitRun at h
  by_cases hr : s.dropWhile (fun c => !(c.isDigit)) = []
  · rw [if_pos hr] at h
    exact absurd h (by simp)
  · rw [if_neg hr] at h
    have hrr := Option.some.inj h
    rcases hrest : s.dropWhile (fun c => !(c.isDigit)) with _ | ⟨c, tl⟩
    · exact absurd hrest hr
    · have hc : c.isDigit = true := by
        have := dropWhile_head_not (fun c => !(c.isDigit)) s c tl hrest
        simpa using this
      refine ⟨?_, ?_, ?_⟩
      · rw [← hrr, hrest, List.takeWhile_cons_of_pos hc]
        simp
      · intro d hd
        rw [← hrr] at hd
        exact List.mem_takeWhile_imp hd
      · refine ⟨s.takeWhile (fun c => !(c.isDigit)),
          (s.dropWhile (fun c => !(c.isDigit))).dropWhile Char.isDigit, ?_, ?_, ?_⟩
        · rw [← hrr, List.append_assoc, List.takeWhile_append_dropWhile,
            List.takeWhile_append_dropWhile]
        · intro d hd
          have := List.mem_takeWhile_imp hd
          simpa using this
        · intro d tl2 hb
          exact dropWhile_head_not Char.isDigit _ d tl2 hb

theorem vContext_spec (c : PyStr) :
    vContext c = [] ∨ isFirstDigitRun (pyStrip c) (vContext c) := by
  unfold vContext
  by_cases h : pyStrip c = []
  · rw [if_pos h]
    exact Or.inl rfl
  · rw [if_neg h]
    cases hf : firstDigitRun (pyStrip c) with
    | none => exact Or.inl rfl
    | some r =>
      exact Or.inr (firstDigitRun_spec _ _ hf)

theorem vKey_entry (m : VModel) :
    vKey { model := if pyStrip m.model ≠ [] then pyStrip m.model else pyStrip m.id,
           id := pyStrip m.id, context := vContext m.context } =
      lowerStr (if pyStrip m.id ≠ [] then pyStrip m.id else pyStrip m.model) := by
  by_cases hid : pyStrip m.id ≠ []
  · simp [vKey, hid]
  · by_cases hname : pyStrip m.model ≠ []
    · simp [vKey, hid, hname, not_not.mp hid]
    · simp [vKey, hid, hname, not_not.mp hid, not_not.mp hname]

theorem validateAux_pairwise :
    ∀ (seen : List PyStr) (ms : List VModel),
      List.Pairwise (fun a b => vKey a ≠ vKey b) (validateAux seen ms) := by
  intro seen ms
  induction ms generalizing seen with
  | nil => simp [validateAux]
  | cons m rest ih =>
    simp only [validateAux]
    by_cases h1 : pyStrip m.model = [] ∧ pyStrip m.id = []
    · rw [if_pos h1]; exact ih _
    · rw [if_neg h1]
      by_cases h2 : lowerStr (if pyStrip m.id ≠ [] then pyStrip m.id else pyStrip m.model) = [] ∨
          lowerStr (if pyStrip m.id ≠ [] then pyStrip m.id else pyStrip m.model) ∈ seen
      · rw [if_pos h2]; exact ih _
      · rw [if_neg h2]
        refine List.Pairwise.cons ?_ (ih _)
        intro b hb heq
        have hbk := (validateAux_mem _ _ _ hb).2
        rw [← heq, vKey_entry] at hbk
        exact hbk (List.mem_cons_self _ _)

/-- **C10** (confirmed).  Every output entry of `validate_and_clean_models`
has a non-empty `model`, carries the fields of some input entry (the
stripped id, the model-or-id fallback, the cleaned context), its `context`
is either empty or exactly the first maximal decimal-digit run of the
stripped input context, and the outputs have pairwise-distinct lowercased
id-or-model keys. -/
theorem c10_validate_invariants (ms : List VModel) :
    List.Pairwise (fun a b => vKey a ≠ vKey b) (validate_and_clean_models ms) ∧
    ∀ r ∈ validate_and_clean_models ms,
      r.model ≠ [] ∧
      ∃ m ∈ ms,
        r.model = (if pyStrip m.model ≠ [] then pyStrip m.model else pyStrip m.id) ∧
        r.id = pyStrip m.id ∧ r.context = vContext m.context ∧
        (r.context = [] ∨ isFirstDigitRun (pyStrip m.context) r.context) := by
  constructor
  · exact validateAux_pairwise [] ms
  · intro r hr
    obtain ⟨⟨m, hm, hmod, hid, hctx, hnb⟩, _⟩ := validateAux_mem [] ms r hr
    refine ⟨?_, m, hm, hmod, hid, hctx, ?_⟩
    · rw [hmod]
      by_cases hname : pyStrip m.model ≠ []
      · rw [if_pos hname]; exact hname
      · rw [if_neg hname]
        intro hc
        exact hnb ⟨not_not.mp hname, hc⟩
    · rw [hctx]
      exact vContext_spec m.context

/-- Witness for C10: the invariants at a concrete one-entry input whose
context " 128k tokens" cleans to the digit run "128". -/
theorem c10_witness :
    (⟨("M").data, ("i7").data, ("128").data⟩ : VOut).model ≠ [] ∧
    ∃ m ∈ [(⟨("M").data, ("i7").data, (" 128k tokens").data⟩ : VModel)],
      (⟨("M").data, ("i7").data, ("128").data⟩ : VOut).model =
        (if pyStrip m.model ≠ [] then pyStrip m.model else pyStrip m.id) ∧
      (⟨("M").data, ("i7").data, ("128").data⟩ : VOut).id = pyStrip m.id ∧
      (⟨("M").data, ("i7").data, ("128").data⟩ : VOut).context = vContext m.context ∧
      ((⟨("M").data, ("i7").data, ("128").data⟩ : VOut).context = [] ∨
        isFirstDigitRun (pyStrip m.context)
          (⟨("M").data, ("i7").data, ("128").data⟩ : VOut).context) := by
  exact (c10_validate_invariants
      [⟨("M").data, ("i7").data, (" 128k tokens").data⟩]).2
    ⟨("M").data, ("i7").data, ("128").data⟩ (by decide)
